import Mathlib

/-!
Verification of the first-aid agent's health-record store and LLM-response
parsing layer, shallowly embedded from the Python sources
(`utils/health_records.py`, `utils/ai_helpers.py`, `utils/ai_helpers_improved.py`,
`app.py`, `utils/map_helper.py`).

Modelling conventions:
* Python `str` is modelled as `List Char` (`Str`); comparisons are code-point
  comparisons, `str.lower`/`str.upper` are mapped `Char.toLower`/`Char.toUpper`
  (the strings the code manipulates are ASCII markers and labels).
* Python `int` is `Int`; numeric literals parsed by `float(...)` are modelled
  exactly as rationals `ℚ` (the decimal strings involved are exact).
* `datetime.now().isoformat()` and `uuid.uuid4()` are nondeterministic inputs:
  each embedded operation takes the produced `now`/`id` string as an explicit
  argument.
* The Streamlit session store `st.session_state.health_records` is the explicit
  state `Store := List InjuryRecord`, threaded through every operation.
* Image blobs (PIL imageL base64 payload) are opaque: a photo is identified by
  a `Nat` token and the PNG/base64 re-encoding in `add_photo_to_record` is
  modelled as carrying that token through unchanged.
* Operations that Python implements by in-place mutation followed by
  `save_record` are modelled as functional record updates followed by
  `save_record`; because `get_record` returns an alias into the stored list,
  this is observationally the same store transformation.
-/

abbrev Str := List Char

/-- Python `str.isspace` / the whitespace class stripped by `str.strip()`. -/
def pyIsSpace (c : Char) : Bool :=
  c = ' ' || c = '\t' || c = '\n' || c = '\x0d' || c = '\x0b' || c = '\x0c'

/-- Python `str.lstrip()` restricted to a character predicate. -/
def lstripP (p : Char → Bool) (s : Str) : Str := s.dropWhile p

/-- Python `str.rstrip()` restricted to a character predicate. -/
def rstripP (p : Char → Bool) (s : Str) : Str := (s.reverse.dropWhile p).reverse

/-- Python `str.strip()` (whitespace both ends). -/
def pyStrip (s : Str) : Str := rstripP pyIsSpace (lstripP pyIsSpace s)

/-- Python `str.lower()` (ASCII case mapping suffices for the code's labels). -/
def lowerStr (s : Str) : Str := s.map Char.toLower

/-- Python `str.upper()`. -/
def upperStr (s : Str) : Str := s.map Char.toUpper

/-- Python `text.split('\n')`: `"" ↦ [""]`, separators produce empty pieces. -/
def splitNl : Str → List Str
  | [] => [[]]
  | c :: cs =>
    if c = '\n' then [] :: splitNl cs
    else
      match splitNl cs with
      | [] => [[c]]
      | l :: ls => (c :: l) :: ls

/-- `'\n'.join(lines)` -/
def joinNl : List Str → Str
  | [] => []
  | [l] => l
  | l :: l' :: ls => l ++ '\n' :: joinNl (l' :: ls)

/-- Python substring test `pat in s` (empty pattern is contained everywhere). -/
def containsSub (pat : Str) : Str → Bool
  | [] => pat.isEmpty
  | c :: cs => pat.isPrefixOf (c :: cs) || containsSub pat cs

/-- Lexicographic string comparison (Python `<` on `str`). -/
def strLt : Str → Str → Bool
  | [], [] => false
  | [], _ :: _ => true
  | _ :: _, [] => false
  | a :: as, b :: bs => if a < b then true else if b < a then false else strLt as bs

/-- Python `<=` on `str`. -/
def strLe (a b : Str) : Bool := !(strLt b a)

/-! ## Health-record store (`utils/health_records.py`) -/

/-- One element of `record["photos"][ptype]`. -/
structure PhotoEntry where
  data : Nat
  timestamp : Str
  ptype : Str
deriving DecidableEq, Repr

/-- One element of `record["recovery"]["updates"]`. -/
structure RecoveryUpdate where
  date : Str
  progress : Int
  pain_level : Option Int
  notes : Str
deriving DecidableEq, Repr

/-- `record["recovery"]`. -/
structure Recovery where
  status : Str
  progress_percentage : Int
  pain_level : Option Int
  updates : List RecoveryUpdate
deriving DecidableEq, Repr

/-- `record["first_aid_steps"]`. -/
structure FirstAidSteps where
  recommended : List Str
  completed : List Int
  notes : Str
  completed_at : Option Str
deriving DecidableEq, Repr

/-- One element of `record["notes"]`. -/
structure NoteEntry where
  timestamp : Str
  content : Str
deriving DecidableEq, Repr

/-- One element of `record["medications"]`. -/
structure Medication where
  name : Str
  dosage : Str
  frequency : Option Str
  added_at : Str
  taken : List Str
deriving DecidableEq, Repr

/-- `record["initial_analysis"]`. -/
structure InitialAnalysis where
  ai_analysis : Str
  severity : Str
  timestamp : Str
deriving DecidableEq, Repr

/-- `record["follow_up_care"]`. -/
structure FollowUpCare where
  doctor_visit : Bool
  visit_date : Option Str
  notes : Str
deriving DecidableEq, Repr

/-- The record dictionary built by `create_injury_record`.  The three photo
lists model `record["photos"]["before"/"during"/"after"]`. -/
structure InjuryRecord where
  id : Str
  timestamp : Str
  injury_type : Str
  description : Str
  severity : Str
  emergency_level : Str
  body_part : Option Str
  location : Option Str
  status : Str
  initial_analysis : InitialAnalysis
  first_aid_steps : FirstAidSteps
  photos_before : List PhotoEntry
  photos_during : List PhotoEntry
  photos_after : List PhotoEntry
  recovery : Recovery
  medications : List Medication
  notes : List NoteEntry
  reminders : List Str
  tags : List Str
  follow_up_care : FollowUpCare
deriving DecidableEq, Repr

abbrev Store := List InjuryRecord

/-- `save_record`: replace the first record with the same `id`, else append.
The Python function scans for the first index whose `id` matches and assigns
there; otherwise appends.  It always returns `True`, so only the resulting
store is modelled. -/
def save_record (record : InjuryRecord) : Store → Store
  | [] => [record]
  | r :: rs => if r.id = record.id then record :: rs else r :: save_record record rs

/-- `get_record`: first record whose `id` matches, else `None`. -/
def get_record (store : Store) (record_id : Str) : Option InjuryRecord :=
  store.find? (fun r => r.id = record_id)

/-- `severity_order` dictionary in `get_all_records` (missing keys give 0). -/
def severity_order (s : Str) : Nat :=
  if s = "SEVERE".toList then 3
  else if s = "MODERATE".toList then 2
  else if s = "MINOR".toList then 1
  else 0

/-- `status_order` dictionary in `get_all_records` (missing keys, including
`"recovering"`, give 0). -/
def status_order (s : Str) : Nat :=
  if s = "active".toList then 3
  else if s = "healing".toList then 2
  else if s = "healed".toList then 1
  else 0

/-- `get_all_records(sort_by, reverse)`: a sorted copy of the store.  Python's
`list.sort` is stable; `reverse=True` sorts descending while preserving the
original order of equal keys, which is `mergeSort` with the `≥` comparator. -/
def get_all_records (store : Store) (sort_by : Str) (reverse : Bool) : List InjuryRecord :=
  if sort_by = "timestamp".toList then
    store.mergeSort (fun a b =>
      if reverse then strLe b.timestamp a.timestamp else strLe a.timestamp b.timestamp)
  else if sort_by = "severity".toList then
    store.mergeSort (fun a b =>
      if reverse then severity_order b.severity ≤ severity_order a.severity
      else severity_order a.severity ≤ severity_order b.severity)
  else if sort_by = "status".toList then
    store.mergeSort (fun a b =>
      if reverse then status_order b.status ≤ status_order a.status
      else status_order a.status ≤ status_order b.status)
  else store

/-- Default-argument form `get_all_records()`. -/
def get_all_records_default (store : Store) : List InjuryRecord :=
  get_all_records store "timestamp".toList true

/-- The record mutation performed by `add_photo_to_record` once the record was
found: append the entry to `record["photos"][photo_type]` when `photo_type` is
one of the three keys, else leave the record unchanged. -/
def photoAppended (record : InjuryRecord) (image : Nat) (photo_type now : Str) :
    InjuryRecord :=
  let entry : PhotoEntry := { data := image, timestamp := now, ptype := photo_type }
  if photo_type = "before".toList then
    { record with photos_before := record.photos_before ++ [entry] }
  else if photo_type = "during".toList then
    { record with photos_during := record.photos_during ++ [entry] }
  else if photo_type = "after".toList then
    { record with photos_after := record.photos_after ++ [entry] }
  else record

/-- `add_photo_to_record(record_id, image, photo_type)`.  Looks the record up
in the store; on a miss returns `False` without touching the store.  The PIL
open/PNG/base64 round-trip is modelled as an opaque successful conversion of
the `image` token (its `except` branch is not modelled since the conversion is
treated as total); the mutated record is then saved. -/
def add_photo_to_record (store : Store) (record_id : Str) (image : Nat)
    (photo_type : Str) (now : Str) : Bool × Store :=
  match get_record store record_id with
  | none => (false, store)
  | some record =>
    (true, save_record (photoAppended record image photo_type now) store)

/-- `create_injury_record(...)`: builds the fresh record dictionary and then,
for each supplied image, calls `add_photo_to_record(record["id"], img, "before")`
— note that this looks the fresh `id` up in the *store*, to which the record
has not been saved, so on a fresh `id` the loop has no effect.  Returns the
built record together with the (possibly modified) store. -/
def create_injury_record (store : Store) (id now : Str)
    (injury_description : Str)
    (severity : Str := "UNKNOWN".toList)
    (emergency_level : Str := "ROUTINE".toList)
    (ai_analysis : Option Str := none)
    (first_aid_steps : Option (List Str) := none)
    (body_part : Option Str := none)
    (location : Option Str := none)
    (images : Option (List Nat) := none) : InjuryRecord × Store :=
  let record : InjuryRecord :=
    { id := id
      timestamp := now
      injury_type := injury_description
      description := injury_description
      severity := severity
      emergency_level := emergency_level
      body_part := body_part
      location := location
      status := "active".toList
      initial_analysis :=
        { ai_analysis := ai_analysis.getD []
          severity := severity
          timestamp := now }
      first_aid_steps :=
        { recommended := first_aid_steps.getD []
          completed := []
          notes := []
          completed_at := none }
      photos_before := []
      photos_during := []
      photos_after := []
      recovery :=
        { status := "initial".toList
          progress_percentage := 0
          pain_level := none
          updates := [] }
      medications := []
      notes := []
      reminders := []
      tags := []
      follow_up_care :=
        { doctor_visit := false
          visit_date := none
          notes := [] } }
  let store' :=
    match images with
    | none => store
    | some imgs =>
      imgs.foldl (fun st img => (add_photo_to_record st id img ("before".toList) now).2) store
  (record, store')

/-- Errors raised by `filter_records`: calling `.lower()` on the `None` stored
under the `"body_part"` key (`r.get("body_part", "")` returns `None` because
the key is present with value `None`, so the default is not used). -/
inductive PyError where
  | attributeError
deriving DecidableEq, Repr

/-- The `body_part` pass of `filter_records`:
`[r for r in filtered if r.get("body_part", "").lower() == body_part.lower()]`.
A record whose `body_part` is `None` raises `AttributeError`. -/
def filterBodyPartPass (bp : Str) : List InjuryRecord → Except PyError (List InjuryRecord)
  | [] => .ok []
  | r :: rs =>
    match r.body_part with
    | none => .error .attributeError
    | some s => do
      let rest ← filterBodyPartPass bp rs
      if lowerStr s = lowerStr bp then return r :: rest else return rest

/-- The `search_query` pass of `filter_records`.  Python's `or` short-circuits,
so `r.get("body_part", "").lower()` (which raises on `None`) is only evaluated
when the query matched neither `injury_type` nor `description`. -/
def searchPass (queryLower : Str) : List InjuryRecord → Except PyError (List InjuryRecord)
  | [] => .ok []
  | r :: rs =>
    let keep : Except PyError Bool :=
      if containsSub queryLower (lowerStr r.injury_type) then .ok true
      else if containsSub queryLower (lowerStr r.description) then .ok true
      else
        match r.body_part with
        | none => .error .attributeError
        | some s => .ok (containsSub queryLower (lowerStr s))
    do
      let k ← keep
      let rest ← searchPass queryLower rs
      if k then return r :: rest else return rest

/-- `filter_records(severity, status, body_part, date_from, date_to, search_query)`.
Starts from `get_all_records()` (default timestamp sort) and applies the
provided criteria in source order.  Absent criteria are `none` (Python `None`;
Python also treats `""` as absent via truthiness, which callers never pass).
Date bounds compare ISO-8601 strings, equivalent under `datetime.fromisoformat`
to the chronological comparison the code performs. -/
def filter_records (store : Store)
    (severity status body_part : Option Str)
    (date_from date_to : Option Str)
    (search_query : Option Str) : Except PyError (List InjuryRecord) := do
  let records := get_all_records_default store
  let f1 := match severity with
    | none => records
    | some sv => records.filter (fun r => r.severity = sv)
  let f2 := match status with
    | none => f1
    | some st => f1.filter (fun r => r.status = st)
  let f3 ← match body_part with
    | none => pure f2
    | some bp => filterBodyPartPass bp f2
  let f4 := match date_from with
    | none => f3
    | some d => f3.filter (fun r => strLe d r.timestamp)
  let f5 := match date_to with
    | none => f4
    | some d => f4.filter (fun r => strLe r.timestamp d)
  match search_query with
  | none => pure f5
  | some q => searchPass (lowerStr q) f5

/-- The record mutation performed by `update_recovery_progress` once the
record was found: set the progress as given (no clamping), update the pain
level only when one was given, append the update entry, and recompute both
statuses through the `if/elif/elif` chain — a progress of `0` hits no branch
and leaves both statuses unchanged. -/
def progressUpdated (record : InjuryRecord) (progress_percentage : Int)
    (pain_level : Option Int) (notes : Option Str) (now : Str) : InjuryRecord :=
  let rec1 :=
    { record.recovery with
      progress_percentage := progress_percentage
      pain_level := match pain_level with
        | some p => some p
        | none => record.recovery.pain_level }
  let entry : RecoveryUpdate :=
    { date := now
      progress := progress_percentage
      pain_level := pain_level
      notes := notes.getD [] }
  let rec2 := { rec1 with updates := rec1.updates ++ [entry] }
  if progress_percentage ≥ 100 then
    { record with status := "healed".toList, recovery := { rec2 with status := "healed".toList } }
  else if progress_percentage ≥ 75 then
    { record with status := "recovering".toList, recovery := { rec2 with status := "recovering".toList } }
  else if progress_percentage > 0 then
    { record with status := "healing".toList, recovery := { rec2 with status := "healing".toList } }
  else
    { record with recovery := rec2 }

/-- `update_recovery_progress(record_id, progress_percentage, pain_level, notes, photo)`.
Returns `False` on an unknown `id`.  Otherwise sets the progress as given (no
clamping), appends an update entry, recomputes both statuses when
`progress > 0` (a progress of `0` hits none of the branches and leaves the
statuses unchanged), optionally adds a `"during"` photo, and saves. -/
def update_recovery_progress (store : Store) (record_id : Str)
    (progress_percentage : Int) (pain_level : Option Int)
    (notes : Option Str) (photo : Option Nat) (now : Str) : Bool × Store :=
  match get_record store record_id with
  | none => (false, store)
  | some record =>
    let record' := progressUpdated record progress_percentage pain_level notes now
    -- In Python the store already holds the mutated record by aliasing; the
    -- optional photo is then added through the store, and the final
    -- `save_record` call re-saves the same (possibly photo-extended) object,
    -- which is the record the store holds under `record_id` at that point.
    let store1 := save_record record' store
    let store2 :=
      match photo with
      | none => store1
      | some img => (add_photo_to_record store1 record_id img ("during".toList) now).2
    (true, save_record (match get_record store2 record_id with
      | some r => r
      | none => record') store2)

/-- The record mutation performed by `mark_first_aid_step_completed` once the
index was accepted: append the index, set `completed_at` on first completion
only, and overwrite `notes` when a non-empty note is given (`if notes:`). -/
def stepMarked (record : InjuryRecord) (step_index : Int) (notes : Option Str)
    (now : Str) : InjuryRecord :=
  { record with first_aid_steps :=
      { record.first_aid_steps with
        completed := record.first_aid_steps.completed ++ [step_index]
        completed_at := match record.first_aid_steps.completed_at with
          | none => some now
          | some t => some t
        notes := match notes with
          | some n => if n = [] then record.first_aid_steps.notes else n
          | none => record.first_aid_steps.notes } }

/-- `mark_first_aid_step_completed(record_id, step_index, notes)`.  Returns
`False` (store untouched) on unknown `id`, out-of-range index, or an index
already in `completed`; otherwise saves the `stepMarked` record. -/
def mark_first_aid_step_completed (store : Store) (record_id : Str)
    (step_index : Int) (notes : Option Str) (now : Str) : Bool × Store :=
  match get_record store record_id with
  | none => (false, store)
  | some record =>
    let fas := record.first_aid_steps
    if 0 ≤ step_index ∧ step_index < fas.recommended.length ∧ step_index ∉ fas.completed then
      (true, save_record (stepMarked record step_index notes now) store)
    else (false, store)

/-- `add_note_to_record(record_id, note_content)`. -/
def add_note_to_record (store : Store) (record_id : Str) (note_content : Str)
    (now : Str) : Bool × Store :=
  match get_record store record_id with
  | none => (false, store)
  | some record =>
    let note : NoteEntry := { timestamp := now, content := note_content }
    (true, save_record { record with notes := record.notes ++ [note] } store)

/-- `add_medication(record_id, name, dosage, frequency)`. -/
def add_medication (store : Store) (record_id : Str) (name dosage : Str)
    (frequency : Option Str) (now : Str) : Bool × Store :=
  match get_record store record_id with
  | none => (false, store)
  | some record =>
    let med : Medication :=
      { name := name, dosage := dosage, frequency := frequency
        added_at := now, taken := [] }
    (true, save_record { record with medications := record.medications ++ [med] } store)

/-- `delete_record(record_id)`: keeps every record whose `id` differs. -/
def delete_record (store : Store) (record_id : Str) : Store :=
  store.filter (fun r => r.id ≠ record_id)

/-- `get_statistics` returns a Python dict whose value set mixes counts,
nested count dicts and `None`; the dict is modelled as an insertion-ordered
association list over this value type. -/
inductive StatValue where
  | num (n : Nat)
  | countMap (entries : List (Str × Nat))
  | strv (s : Str)
  | null
deriving DecidableEq, Repr

/-- Increment a Python counting dict: bump an existing key in place, else
append it (dicts preserve insertion order). -/
def bumpCount (m : List (Str × Nat)) (k : Str) : List (Str × Nat) :=
  match m with
  | [] => [(k, 1)]
  | (k', n) :: rest => if k' = k then (k', n + 1) :: rest else (k', n) :: bumpCount rest k

/-- Python `max(items, key=lambda x: x[1])` over a non-empty association list:
the first entry with the maximal count wins ties. -/
def maxByCount (first : Str × Nat) : List (Str × Nat) → Str × Nat
  | [] => first
  | e :: rest => maxByCount (if e.2 > first.2 then e else first) rest

/-- `get_statistics()`: statistics over `get_all_records()`.  On an empty
store the returned dict has keys `total_records`, `by_severity`, `by_status`,
`most_common_body_part` and `average_recovery_time` (and no
`active_injuries`/`healed_injuries` keys); on a non-empty store it has
`total_records`, `by_severity`, `by_status`, `most_common_body_part`,
`active_injuries`, `healed_injuries`. -/
def get_statistics (store : Store) : List (Str × StatValue) :=
  let records := get_all_records_default store
  match records with
  | [] =>
    [ ("total_records".toList, .num 0)
    , ("by_severity".toList, .countMap [])
    , ("by_status".toList, .countMap [])
    , ("most_common_body_part".toList, .null)
    , ("average_recovery_time".toList, .null) ]
  | _ :: _ =>
    let severity_count := records.foldl (fun m r => bumpCount m r.severity) []
    let status_count := records.foldl (fun m r => bumpCount m r.status) []
    let body_parts := records.foldl (fun m r =>
      match r.body_part with
      | some bp => if bp = [] then m else bumpCount m bp
      | none => m) []
    let most_common : StatValue :=
      match body_parts with
      | [] => .null
      | e :: rest => .strv (maxByCount e rest).1
    [ ("total_records".toList, .num records.length)
    , ("by_severity".toList, .countMap severity_count)
    , ("by_status".toList, .countMap status_count)
    , ("most_common_body_part".toList, most_common)
    , ("active_injuries".toList,
        .num (records.countP (fun r => r.status = "active".toList)))
    , ("healed_injuries".toList,
        .num (records.countP (fun r => r.status = "healed".toList))) ]

/-! ### The store's operation alphabet

The operations the application performs against the session store: creating a
record and saving it (`app.py` always pairs `create_injury_record` with
`save_record`), the mutators (each of which ends in its own `save_record`
call), and deletion.  Reachable stores are those produced from the empty
session store by a sequence of these operations. -/

inductive StoreOp where
  | createSave (id now injury_description : Str) (severity emergency_level : Str)
      (ai_analysis : Option Str) (first_aid_steps : Option (List Str))
      (body_part location : Option Str) (images : Option (List Nat))
  | updateProgress (record_id : Str) (progress : Int) (pain_level : Option Int)
      (notes : Option Str) (photo : Option Nat) (now : Str)
  | markStep (record_id : Str) (step_index : Int) (notes : Option Str) (now : Str)
  | addNote (record_id : Str) (content now : Str)
  | addMed (record_id : Str) (name dosage : Str) (frequency : Option Str) (now : Str)
  | addPhoto (record_id : Str) (image : Nat) (photo_type now : Str)
  | deleteRec (record_id : Str)

def applyOp (s : Store) : StoreOp → Store
  | .createSave id now desc sev em ai steps bp loc imgs =>
    let (record, s') := create_injury_record s id now desc sev em ai steps bp loc imgs
    save_record record s'
  | .updateProgress rid p pl nts ph now => (update_recovery_progress s rid p pl nts ph now).2
  | .markStep rid i nts now => (mark_first_aid_step_completed s rid i nts now).2
  | .addNote rid content now => (add_note_to_record s rid content now).2
  | .addMed rid name dosage freq now => (add_medication s rid name dosage freq now).2
  | .addPhoto rid img pt now => (add_photo_to_record s rid img pt now).2
  | .deleteRec rid => delete_record s rid

def applyOps (ops : List StoreOp) (s : Store) : Store := ops.foldl applyOp s

/-! ## Severity parsing (`utils/ai_helpers.py` `analyze_image` structured
branch, lines 96–117, and the identical logic in
`utils/ai_helpers_improved.py` `analyze_image_improved`, lines 99–120). -/

/-- The literal marker `"SEVERITY:"`. -/
def severityMarker : Str := "SEVERITY:".toList

/-- If `m` occurs in `l`, the suffix of `l` after the first occurrence. -/
def afterFirstQ (m : Str) : Str → Option Str
  | [] => if m.isEmpty then some [] else none
  | c :: cs =>
    if m.isPrefixOf (c :: cs) then some ((c :: cs).drop m.length)
    else afterFirstQ m cs

/-- Fuelled worker for `afterLastMarker`: each found occurrence strictly
shortens the string when `m` is non-empty, so `l.length` fuel is enough. -/
def afterLastAux (m : Str) : Nat → Str → Str
  | 0, l => l
  | fuel + 1, l =>
    match afterFirstQ m l with
    | none => l
    | some r => afterLastAux m fuel r

/-- Python `l.split(m)[-1]`: the suffix after the last occurrence of `m`
(the whole string when `m` does not occur). -/
def afterLastMarker (m l : Str) : Str := afterLastAux m l.length l

def msgConsult : Str := "Consult with healthcare professional.".toList
def msgSevere : Str :=
  "🚨 URGENT: Seek immediate professional medical attention. Call emergency services if needed.".toList
def msgModerate : Str :=
  "⚠️ Recommend seeing a healthcare professional soon, within 24 hours.".toList
def msgMinor : Str :=
  "✅ Minor injury. Follow first aid steps and monitor. See a doctor if symptoms worsen.".toList

structure AnalyzeResult where
  analysis : Str
  severity : Str
  recommendation : Str
deriving DecidableEq, Repr

/-- The response-parsing section of `analyze_image(..., return_structured=True)`
(and of `analyze_image_improved`), applied to the stripped LLM response text:
default severity `"UNKNOWN"`; if the text contains `"SEVERITY:"` (case
sensitive), the severity is the text after the last `"SEVERITY:"` of the first
line containing the marker, stripped and upper-cased; the recommendation is
chosen by substring tests against the extracted severity. -/
def parse_severity_response (analysis_text : Str) : AnalyzeResult :=
  let severity : Str :=
    if containsSub severityMarker analysis_text then
      match (splitNl analysis_text).filter (fun l => containsSub severityMarker l) with
      | [] => "UNKNOWN".toList
      | l :: _ => upperStr (pyStrip (afterLastMarker severityMarker l))
    else "UNKNOWN".toList
  let recommendation : Str :=
    if containsSub ("SEVERE".toList) severity then msgSevere
    else if containsSub ("MODERATE".toList) severity then msgModerate
    else if containsSub ("MINOR".toList) severity then msgMinor
    else msgConsult
  { analysis := analysis_text, severity := severity, recommendation := recommendation }

/-- The claim's "contains X in any letter case". -/
def containsCaseInsensitive (pat s : Str) : Bool :=
  containsSub (lowerStr pat) (lowerStr s)

/-! ## Step-list extraction (`app.py` lines 488–495). -/

/-- The character set of `line.lstrip('0123456789.•-* ).')`. -/
def inStripSet (c : Char) : Bool :=
  c.isDigit || c = '.' || c = '•' || c = '-' || c = '*' || c = ' ' || c = ')'

/-- One iteration of the extraction loop: strip the line; keep it if it starts
with a digit (`line[0].isdigit()`, ASCII digits here) or one of the bullet characters (bullet, hyphen, asterisk);
clean it with `lstrip('0123456789.•-* ).').strip()`; drop it if the cleaned
text is empty. -/
def cleanStep (line : Str) : Option Str :=
  match pyStrip line with
  | [] => none
  | c :: cs =>
    if c.isDigit || c = '•' || c = '-' || c = '*' then
      let s := pyStrip (lstripP inStripSet (c :: cs))
      if s = [] then none else some s
    else none

/-- The whole loop over `steps_text.split('\n')`. -/
def extractSteps (steps_text : Str) : List Str :=
  (splitNl steps_text).filterMap cleanStep

/-- Fuelled digit expansion: `n` has at most `n + 1` decimal digits, so the
fuel never runs out when called through `natChars`. -/
def natCharsAux : Nat → Nat → Str
  | 0, _ => []
  | fuel + 1, n =>
    if n < 10 then [Char.ofNat (48 + n)]
    else natCharsAux fuel (n / 10) ++ [Char.ofNat (48 + n % 10)]

/-- Decimal digits of `n` (`str(n)` for the re-numbering of extracted steps). -/
def natChars (n : Nat) : Str := natCharsAux (n + 1) n

/-- Number the extracted steps `i. step` starting from `i`. -/
def numberFrom (i : Nat) : List Str → List Str
  | [] => []
  | s :: ss => (natChars i ++ '.' :: ' ' :: s) :: numberFrom (i + 1) ss

/-- The joined, re-numbered output of a previous extraction:
`"\n".join(f"{i+1}. {s}" for i, s in enumerate(steps))`. -/
def renumberSteps (steps : List Str) : Str := joinNl (numberFrom 1 steps)

/-! ## Facility-list parsing (`utils/map_helper.py` `parse_facilities_to_df`).

The four extraction strategies are regular expressions; each is embedded as a
deterministic matcher that reproduces the engine's backtracking order
(greedy `\s*` explored longest-first, lazy `(.+?)` shortest-first; the numeric
atoms `[+-]?\d+\.?\d*` are deterministic because no shorter greedy split can
ever recover from a failure of the longer one).  `float(...)` on the matched
numerals is exact decimal conversion, modelled in `ℚ`; the `except ValueError`
arms are dead because the matched shapes always convert.  The geocoder
(`geocode_address`) is an external collaborator, passed in as an oracle; the
parser also returns how many times it was invoked. -/

structure Facility where
  name : Str
  address : Str
  lat : Option ℚ
  lon : Option ℚ
deriving DecidableEq, Repr

/-- Digit list to number. -/
def digitsToNat (ds : Str) : Nat :=
  ds.foldl (fun acc c => acc * 10 + (c.toNat - 48)) 0

/-- Exact value of the decimal numeral `[-]ip[.fp]`. -/
def decToRat (neg : Bool) (ip fp : Str) : ℚ :=
  let q : ℚ := (digitsToNat ip : ℚ) + (digitsToNat fp : ℚ) / ((10 : ℚ) ^ fp.length)
  if neg then -q else q

/-- Matches `^\d+\.` and returns the rest (used both for the line guard
`re.match(r'^\d+\.', line)` and as the prefix of strategies 1, 3 and 4). -/
def matchNumDot (l : Str) : Option Str :=
  let ds := l.takeWhile Char.isDigit
  let rest := l.dropWhile Char.isDigit
  if ds = [] then none
  else
    match rest with
    | '.' :: r => some r
    | _ => none

/-- Matches the atom `[+-]?\d+\.?\d*` at the head of `s`, returning
(negative sign?, integer digits, fraction digits, rest). -/
def matchNum (s : Str) : Option (Bool × Str × Str × Str) :=
  let (neg, s1) :=
    match s with
    | '+' :: r => (false, r)
    | '-' :: r => (true, r)
    | _ => (false, s)
  let ip := s1.takeWhile Char.isDigit
  let s2 := s1.dropWhile Char.isDigit
  if ip = [] then none
  else
    match s2 with
    | '.' :: r => some (neg, ip, r.takeWhile Char.isDigit, r.dropWhile Char.isDigit)
    | _ => some (neg, ip, [], s2)

/-- Lazy segment `(.+?)\s*\|`: the shortest non-empty group followed by
optional whitespace and a pipe; returns (group, rest after the pipe). -/
def lazyPipe : Str → Option (Str × Str)
  | [] => none
  | c :: cs =>
    match cs.dropWhile pyIsSpace with
    | '|' :: r => some ([c], r)
    | _ =>
      match lazyPipe cs with
      | some (g, r) => some (c :: g, r)
      | none => none

/-- `\s*(.+?)\s*\|` with the engine's order: the leading `\s*` is greedy and
gives characters back to the group only when no match exists otherwise. -/
def segPipe (s : Str) : Option (Str × Str) :=
  go (s.takeWhile pyIsSpace).length
where
  go : Nat → Option (Str × Str)
  | 0 => lazyPipe s
  | j + 1 =>
    match lazyPipe (s.drop (j + 1)) with
    | some gr => some gr
    | none => go j

/-- Strategy 1 after the `^\d+\.` prefix has been removed:
`\s*(.+?)\s*\|\s*(.+?)\s*\|\s*([+-]?\d+\.?\d*),\s*([+-]?\d+\.?\d*)`.
Returns (name, address, lat, lon) with the groups' `.strip()` applied as in
the code. -/
def match1 (line : Str) : Option (Str × Str × ℚ × ℚ) :=
  match matchNumDot line with
  | none => none
  | some rest =>
    match segPipe rest with
    | none => none
    | some (g1, r1) =>
      match segPipe r1 with
      | none => none
      | some (g2, r2) =>
        match matchNum (r2.dropWhile pyIsSpace) with
        | none => none
        | some (neg1, ip1, fp1, r3) =>
          match r3 with
          | ',' :: r4 =>
            match matchNum (r4.dropWhile pyIsSpace) with
            | none => none
            | some (neg2, ip2, fp2, _) =>
              some (pyStrip g1, pyStrip g2, decToRat neg1 ip1 fp1, decToRat neg2 ip2 fp2)
          | _ => none

/-- The coordinate-pair pattern of strategy 2,
`([+-]?\d+\.?\d*)\s*,\s*([+-]?\d+\.?\d*)`, anchored at the head of `s`. -/
def coordAt (s : Str) : Option (ℚ × ℚ) :=
  match matchNum s with
  | none => none
  | some (neg1, ip1, fp1, r1) =>
    match r1.dropWhile pyIsSpace with
    | ',' :: r2 =>
      match matchNum (r2.dropWhile pyIsSpace) with
      | none => none
      | some (neg2, ip2, fp2, _) => some (decToRat neg1 ip1 fp1, decToRat neg2 ip2 fp2)
    | _ => none

/-- `re.search` of the coordinate pair: leftmost match; returns the prefix of
the line before the match (`line[:match2.start()]`) and the two numbers. -/
def searchCoord : Str → Option (Str × ℚ × ℚ)
  | [] => none
  | c :: cs =>
    match coordAt (c :: cs) with
    | some (la, lo) => some ([], la, lo)
    | none =>
      match searchCoord cs with
      | some (pre, la, lo) => some (c :: pre, la, lo)
      | none => none

/-- The separator class `[|,\-–—]` of strategies 2 and 4. -/
def isSep (c : Char) : Bool :=
  c = '|' || c = ',' || c = '-' || c = '–' || c = '—'

/-- `re.split(r'[|,\-–—]', s, 1)`: split once at the first separator. -/
def splitSepOnce : Str → Option (Str × Str)
  | [] => none
  | c :: cs =>
    if isSep c then some ([], cs)
    else
      match splitSepOnce cs with
      | some (x, y) => some (c :: x, y)
      | none => none

/-- `re.split(r'[|,\-–—]', s)`: split at every separator. -/
def splitSepAll : Str → List Str
  | [] => [[]]
  | c :: cs =>
    if isSep c then [] :: splitSepAll cs
    else
      match splitSepAll cs with
      | [] => [[c]]
      | l :: ls => (c :: l) :: ls

/-- `re.sub(r'^\d+\.\s*', '', s)`: drop a leading `<digits>.<ws>` if present. -/
def stripNumDot (s : Str) : Str :=
  match matchNumDot s with
  | some r => r.dropWhile pyIsSpace
  | none => s

/-- Lazy segment of strategy 3, `(.+?),\s*(.+)$`: shortest non-empty group
followed by a comma that still has at least one character after it; returns
(group, rest after the comma). -/
def lazyComma : Str → Option (Str × Str)
  | [] => none
  | c :: cs =>
    match cs with
    | ',' :: r =>
      match r with
      | _ :: _ => some ([c], r)
      | [] =>
        match lazyComma cs with
        | some (g, r') => some (c :: g, r')
        | none => none
    | _ =>
      match lazyComma cs with
      | some (g, r') => some (c :: g, r')
      | none => none

/-- `\s*(.+?),\s*(.+)$` with the engine's exploration order (as in `segPipe`). -/
def segComma (s : Str) : Option (Str × Str) :=
  go (s.takeWhile pyIsSpace).length
where
  go : Nat → Option (Str × Str)
  | 0 => lazyComma s
  | j + 1 =>
    match lazyComma (s.drop (j + 1)) with
    | some gr => some gr
    | none => go j

/-- Strategy 3: `^\d+\.\s*(.+?),\s*(.+)$` giving (name, address), both
stripped (`\s*` after the comma plus the code's `.strip()` collapse to
`pyStrip` of the raw remainder). -/
def match3 (line : Str) : Option (Str × Str) :=
  match matchNumDot line with
  | none => none
  | some rest =>
    match segComma rest with
    | none => none
    | some (g1, r) => some (pyStrip g1, pyStrip r)

/-- Strategy 4 preparation: `^\d+\.\s*(.+)$` then split on all separators,
strip the parts, and keep the non-empty ones. -/
def match4parts (line : Str) : Option (List Str) :=
  match matchNumDot line with
  | none => none
  | some rest =>
    match rest with
    | [] => none
    | _ :: _ =>
      let content := pyStrip rest
      some ((splitSepAll content).map pyStrip |>.filter (fun p => p ≠ []))

/-- `' '.join(parts)` -/
def joinSpace : List Str → Str
  | [] => []
  | [l] => l
  | l :: l' :: ls => l ++ ' ' :: joinSpace (l' :: ls)

/-- Process one line of the numbered list: the body of the `for line in lines`
loop.  Returns the appended facilities (0 or 1) and the number of geocoder
invocations (0 or 1). -/
def parseFacilityLine (geo : Str → Option (ℚ × ℚ)) (rawLine : Str) :
    List Facility × Nat :=
  let line := pyStrip rawLine
  if line = [] then ([], 0)
  else if (matchNumDot line).isNone then ([], 0)
  else
    match match1 line with
    | some (name, address, la, lo) => ([⟨name, address, some la, some lo⟩], 0)
    | none =>
      match searchCoord line with
      | some (pre, la, lo) =>
        let pre1 := stripNumDot (pyStrip pre)
        let (name, address) :=
          match splitSepOnce pre1 with
          | some (x, y) => (pyStrip x, pyStrip y)
          | none => (pyStrip pre1, pre1)
        ([⟨name, address, some la, some lo⟩], 0)
      | none =>
        match match3 line with
        | some (name, address) =>
          (match geo address with
           | some (la, lo) => ([⟨name, address, some la, some lo⟩], 1)
           | none => ([⟨name, address, none, none⟩], 1))
        | none =>
          match match4parts line with
          | some parts =>
            (match parts with
             | p1 :: p2 :: rest =>
               let name := p1
               let address := joinSpace (p2 :: rest)
               (match geo address with
                | some (la, lo) => ([⟨name, address, some la, some lo⟩], 1)
                | none => ([⟨name, address, none, none⟩], 1))
             | _ => ([], 0))
          | none => ([], 0)

/-- `parse_facilities_to_df(text_result)`: the whole loop over
`text_result.split('\n')`, also counting geocoder invocations. -/
def parse_facilities_to_df (geo : Str → Option (ℚ × ℚ)) (text_result : Str) :
    List Facility × Nat :=
  (splitNl text_result).foldl
    (fun (acc : List Facility × Nat) l =>
      let (fs, n) := parseFacilityLine geo l
      (acc.1 ++ fs, acc.2 + n))
    ([], 0)

/-! ## Store lemmas -/

theorem mem_of_mem_save_record {r' r : InjuryRecord} {s : Store}
    (h : r' ∈ save_record r s) : r' = r ∨ r' ∈ s := by
  induction s with
  | nil =>
    simp only [save_record, List.mem_singleton] at h
    exact Or.inl h
  | cons r₁ rs ih =>
    simp only [save_record] at h
    by_cases hid : r₁.id = r.id
    · rw [if_pos hid] at h
      rcases List.mem_cons.mp h with h | h
      · exact Or.inl h
      · exact Or.inr (List.mem_cons_of_mem _ h)
    · rw [if_neg hid] at h
      rcases List.mem_cons.mp h with h | h
      · exact Or.inr (h ▸ List.mem_cons_self _ _)
      · rcases ih h with h' | h'
        · exact Or.inl h'
        · exact Or.inr (List.mem_cons_of_mem _ h')

theorem get_record_eq_some {s : Store} {id : Str} {r : InjuryRecord}
    (h : get_record s id = some r) : r ∈ s ∧ r.id = id := by
  refine ⟨List.mem_of_find?_eq_some h, ?_⟩
  have := List.find?_some h
  simpa using this

theorem get_record_save_self {rec : InjuryRecord} {s : Store} {id : Str}
    (hid : rec.id = id) : get_record (save_record rec s) id = some rec := by
  induction s with
  | nil => simp [save_record, get_record, hid]
  | cons r₁ rs ih =>
    by_cases h1 : r₁.id = rec.id
    · have h1' : r₁.id = id := h1.trans hid
      simp [save_record, get_record, List.find?_cons, hid, h1']
    · have h2 : ¬ r₁.id = id := fun hc => h1 (hc.trans hid.symm)
      simp only [save_record, if_neg h1, get_record, List.find?_cons] at ih ⊢
      simpa [h2] using ih

theorem save_record_noop {s : Store} {id : Str} {r : InjuryRecord}
    (h : get_record s id = some r) : save_record r s = s := by
  induction s with
  | nil => simp [get_record] at h
  | cons r₁ rs ih =>
    by_cases h1 : r₁.id = id
    · have hr : r₁ = r := by simpa [get_record, List.find?_cons, h1] using h
      subst hr
      simp [save_record, h1]
    · have h' : get_record rs id = some r := by
        simpa [get_record, List.find?_cons, h1] using h
      have hrid : r.id = id := (get_record_eq_some h').2
      have h2 : ¬ r₁.id = r.id := fun hc => h1 (hc.trans hrid)
      simp [save_record, if_neg h2, ih h']

/-- Number of records with a given `id`. -/
def countId (s : Store) (id : Str) : Nat :=
  s.countP (fun r => decide (r.id = id))

theorem countId_save_eq_one {s : Store} {r : InjuryRecord} {id : Str}
    (hid : r.id = id) (h : countId s id ≤ 1) :
    countId (save_record r s) id = 1 := by
  induction s with
  | nil => simp [save_record, countId, List.countP_cons, hid]
  | cons r₁ rs ih =>
    simp only [countId, List.countP_cons] at h ih ⊢
    by_cases h1 : r₁.id = id
    · have h1' : r₁.id = r.id := h1.trans hid.symm
      rw [save_record, if_pos h1']
      simp only [List.countP_cons, hid, h1, decide_eq_true_eq, if_pos rfl] at h ⊢
      simp only [if_pos trivial] at h ⊢
      omega
    · have h1' : ¬ r₁.id = r.id := fun hc => h1 (hc.trans hid)
      rw [save_record, if_neg h1']
      have hr1 : (decide (r₁.id = id)) = false := by simp [h1]
      simp only [List.countP_cons, hr1, Bool.false_eq_true, if_false] at h ⊢
      have := ih (by omega)
      omega

theorem countId_get_all_records (s : Store) (sb : Str) (rev : Bool) (id : Str) :
    countId (get_all_records s sb rev) id = countId s id := by
  unfold get_all_records countId
  split_ifs <;> first
    | exact (List.mergeSort_perm _ _).countP_eq _
    | rfl

/-- Claim C8: saving then getting returns the saved record, for any store; and
on a store holding at most one record with the `id` (as every store reachable
through `save_record` does), saving twice with the same `id` leaves exactly
one entry with that `id` in `get_all_records()`. -/
theorem save_get_roundtrip_and_upsert (s : Store) (r r' : InjuryRecord)
    (hid : r'.id = r.id) (hcount : countId s r.id ≤ 1) :
    get_record (save_record r s) r.id = some r ∧
    countId (get_all_records_default (save_record r' (save_record r s))) r.id = 1 := by
  refine ⟨get_record_save_self rfl, ?_⟩
  rw [get_all_records_default, countId_get_all_records]
  have h1 : countId (save_record r s) r.id = 1 := countId_save_eq_one rfl hcount
  exact countId_save_eq_one hid (le_of_eq h1)

/-- A small concrete record for witnesses. -/
def witnessRecord : InjuryRecord :=
  (create_injury_record [] ("w1".toList) ("t0".toList) ("cut".toList)
    ("MINOR".toList) ("ROUTINE".toList) none none none none none).1

/-- Witness for C8 at a concrete record and the empty store. -/
theorem save_get_roundtrip_and_upsert_witness :
    get_record (save_record witnessRecord []) witnessRecord.id = some witnessRecord ∧
    countId (get_all_records_default
      (save_record witnessRecord (save_record witnessRecord []))) witnessRecord.id = 1 :=
  save_get_roundtrip_and_upsert [] witnessRecord witnessRecord rfl (by decide)

/-- Claim C2: the record returned by `create_injury_record` never carries the
supplied photos: its `photos["before"]` list is empty for every store and
argument list (the photo loop looks the fresh record up in the store before it
has been saved), and in particular with one supplied photo the "before" list
does not have one entry. -/
theorem create_drops_supplied_photos :
    (∀ (store : Store) (id now desc sev em : Str) (ai : Option Str)
        (fas : Option (List Str)) (bp loc : Option Str) (imgs : Option (List Nat)),
      ((create_injury_record store id now desc sev em ai fas bp loc imgs).1).photos_before = []) ∧
    ((create_injury_record [] ("r1".toList) ("t0".toList) ("cut".toList)
        ("SEVERE".toList) ("URGENT".toList) none none none none
        (some [7])).1).photos_before.length ≠ 1 := by
  exact ⟨fun _ _ _ _ _ _ _ _ _ _ _ => rfl, by decide⟩

/-- The empty-store statistics dictionary asserted by the claim. -/
def claimedEmptyStats : List (Str × StatValue) :=
  [ ("total_records".toList, .num 0)
  , ("by_severity".toList, .countMap [])
  , ("by_status".toList, .countMap [])
  , ("most_common_body_part".toList, .null)
  , ("active_injuries".toList, .num 0)
  , ("healed_injuries".toList, .num 0) ]

/-- `get_statistics` on the empty store, computed. -/
theorem get_statistics_nil :
    get_statistics [] =
      [ ("total_records".toList, .num 0)
      , ("by_severity".toList, .countMap [])
      , ("by_status".toList, .countMap [])
      , ("most_common_body_part".toList, .null)
      , ("average_recovery_time".toList, .null) ] := by
  simp [get_statistics, get_all_records_default, get_all_records, List.mergeSort_nil]

/-- Claim C3, counterexample: on the empty store the statistics dict is not
the claimed one — the `active_injuries`/`healed_injuries` keys are absent. -/
theorem stats_empty_missing_count_keys :
    get_statistics [] ≠ claimedEmptyStats ∧
    (get_statistics []).lookup ("active_injuries".toList) = none ∧
    (get_statistics []).lookup ("healed_injuries".toList) = none := by
  rw [get_statistics_nil]
  refine ⟨by decide, by decide, by decide⟩

/-- Claim C3 as amended: on the empty store the statistics dict has exactly
the keys `total_records` (0), `by_severity` ({}), `by_status` ({}),
`most_common_body_part` (None) and `average_recovery_time` (None); the
`active_injuries`/`healed_injuries` fields are absent. -/
theorem stats_empty_shape :
    get_statistics [] =
      [ ("total_records".toList, .num 0)
      , ("by_severity".toList, .countMap [])
      , ("by_status".toList, .countMap [])
      , ("most_common_body_part".toList, .null)
      , ("average_recovery_time".toList, .null) ] := get_statistics_nil

/-- A record created with `body_part=None` (the default). -/
def recNoBodyPart : InjuryRecord :=
  (create_injury_record [] ("r1".toList) ("t0".toList) ("cut".toList)
    ("UNKNOWN".toList) ("ROUTINE".toList) none none none none none).1

/-- A store holding one record created with `body_part=None` (the default). -/
def storeNoBodyPart : Store :=
  applyOps [ .createSave ("r1".toList) ("t0".toList) ("cut".toList)
      ("UNKNOWN".toList) ("ROUTINE".toList) none none none none none ] []

/-- Claim C5: filtering is *not* total.  On a store whose record has
`body_part = None` (as `create_injury_record` produces by default), both the
`body_part` criterion and a `search_query` that matches neither the type nor
the description evaluate `None.lower()` and raise `AttributeError`. -/
theorem filter_records_raises_on_missing_body_part :
    filter_records storeNoBodyPart none none (some ("arm".toList)) none none none
      = .error .attributeError ∧
    filter_records storeNoBodyPart none none none none none (some ("arm".toList))
      = .error .attributeError := by
  have hall : get_all_records_default storeNoBodyPart = [recNoBodyPart] := by
    show get_all_records_default [recNoBodyPart] = [recNoBodyPart]
    simp [get_all_records_default, get_all_records, List.mergeSort_singleton]
  constructor
  · simp only [filter_records, hall]
    rfl
  · simp only [filter_records, hall]
    rfl

/-- Claim C4, counterexample: the marker test `"SEVERITY:" in analysis_text`
is case sensitive, so a text containing `"SEVERITY: SEVERE"` only in lower
case parses to severity `"UNKNOWN"` with the generic recommendation. -/
theorem severity_case_sensitivity_cex :
    containsCaseInsensitive ("SEVERITY: SEVERE".toList) ("severity: severe".toList) = true ∧
    (parse_severity_response ("severity: severe".toList)).severity ≠ "SEVERE".toList ∧
    (parse_severity_response ("severity: severe".toList)).recommendation ≠ msgSevere := by
  refine ⟨by decide, by decide, by decide⟩

/-- Claim C4 as amended: (1) for every text without the (case-sensitive)
`"SEVERITY:"` marker the parsed severity is `"UNKNOWN"`; (2) for every text
that contains the marker and whose first marker line carries, after the last
occurrence of the marker, a value equal to `"SEVERE"` up to case and
surrounding whitespace, the parsed severity is `"SEVERE"` and the
recommendation is the fixed SEVERE urgent-care message. -/
theorem severity_parse_amended :
    (∀ t : Str, containsSub severityMarker t = false →
      (parse_severity_response t).severity = "UNKNOWN".toList) ∧
    (∀ (t l : Str) (rest : List Str),
      containsSub severityMarker t = true →
      (splitNl t).filter (fun l' => containsSub severityMarker l') = l :: rest →
      upperStr (pyStrip (afterLastMarker severityMarker l)) = "SEVERE".toList →
      (parse_severity_response t).severity = "SEVERE".toList ∧
      (parse_severity_response t).recommendation = msgSevere) := by
  constructor
  · intro t h
    simp [parse_severity_response, h]
  · intro t l rest h1 h2 h3
    constructor
    · simp [parse_severity_response, h1, h2, h3]
    · simp only [parse_severity_response, h1, if_true, h2, h3]
      norm_num
      decide

/-- Witness for the amended C4 at concrete inputs. -/
theorem severity_parse_amended_witness :
    (parse_severity_response ("no marker here".toList)).severity = "UNKNOWN".toList ∧
    ((parse_severity_response ("SEVERITY: severe ".toList)).severity = "SEVERE".toList ∧
     (parse_severity_response ("SEVERITY: severe ".toList)).recommendation = msgSevere) :=
  ⟨severity_parse_amended.1 ("no marker here".toList) (by decide),
   severity_parse_amended.2 ("SEVERITY: severe ".toList) ("SEVERITY: severe ".toList) []
     (by decide) (by decide) (by decide)⟩

/-! ## Facts about the record mutators -/

theorem photoAppended_id (r : InjuryRecord) (img : Nat) (pt now : Str) :
    (photoAppended r img pt now).id = r.id := by
  unfold photoAppended; split_ifs <;> rfl

theorem photoAppended_status (r : InjuryRecord) (img : Nat) (pt now : Str) :
    (photoAppended r img pt now).status = r.status := by
  unfold photoAppended; split_ifs <;> rfl

theorem photoAppended_fas (r : InjuryRecord) (img : Nat) (pt now : Str) :
    (photoAppended r img pt now).first_aid_steps = r.first_aid_steps := by
  unfold photoAppended; split_ifs <;> rfl

theorem photoAppended_recovery (r : InjuryRecord) (img : Nat) (pt now : Str) :
    (photoAppended r img pt now).recovery = r.recovery := by
  unfold photoAppended; split_ifs <;> rfl

theorem progressUpdated_id (r : InjuryRecord) (p : Int) (pl : Option Int)
    (nts : Option Str) (now : Str) :
    (progressUpdated r p pl nts now).id = r.id := by
  unfold progressUpdated; split_ifs <;> rfl

theorem progressUpdated_fas (r : InjuryRecord) (p : Int) (pl : Option Int)
    (nts : Option Str) (now : Str) :
    (progressUpdated r p pl nts now).first_aid_steps = r.first_aid_steps := by
  unfold progressUpdated; split_ifs <;> rfl

theorem progressUpdated_status (r : InjuryRecord) (p : Int) (pl : Option Int)
    (nts : Option Str) (now : Str) :
    (progressUpdated r p pl nts now).status =
      (if p ≥ 100 then "healed".toList
       else if p ≥ 75 then "recovering".toList
       else if p > 0 then "healing".toList
       else r.status) := by
  unfold progressUpdated; split_ifs <;> rfl

theorem progressUpdated_progress (r : InjuryRecord) (p : Int) (pl : Option Int)
    (nts : Option Str) (now : Str) :
    (progressUpdated r p pl nts now).recovery.progress_percentage = p := by
  unfold progressUpdated; split_ifs <;> rfl

/-- The record visible under `record_id` after a successful
`update_recovery_progress`: the progress-updated record, possibly extended
with the optional "during" photo. -/
theorem update_recovery_progress_get {s : Store} {rid : Str} {r : InjuryRecord}
    (h : get_record s rid = some r) (p : Int) (pl : Option Int)
    (nts : Option Str) (ph : Option Nat) (now : Str) :
    ∃ r', get_record (update_recovery_progress s rid p pl nts ph now).2 rid = some r' ∧
      r'.status = (progressUpdated r p pl nts now).status ∧
      r'.first_aid_steps = r.first_aid_steps ∧
      r'.recovery.progress_percentage = p := by
  have hrid : r.id = rid := (get_record_eq_some h).2
  have hid' : (progressUpdated r p pl nts now).id = rid := by
    rw [progressUpdated_id]; exact hrid
  simp only [update_recovery_progress, h]
  cases ph with
  | none =>
    have h1 : get_record (save_record (progressUpdated r p pl nts now) s) rid
        = some (progressUpdated r p pl nts now) := get_record_save_self hid'
    refine ⟨progressUpdated r p pl nts now, ?_, rfl,
      progressUpdated_fas r p pl nts now, progressUpdated_progress r p pl nts now⟩
    simp only [h1, save_record_noop h1]
  | some img =>
    have h1 : get_record (save_record (progressUpdated r p pl nts now) s) rid
        = some (progressUpdated r p pl nts now) := get_record_save_self hid'
    have hid'' : (photoAppended (progressUpdated r p pl nts now) img ("during".toList) now).id
        = rid := by rw [photoAppended_id]; exact hid'
    have h2 : (add_photo_to_record (save_record (progressUpdated r p pl nts now) s)
        rid img ("during".toList) now).2
        = save_record (photoAppended (progressUpdated r p pl nts now) img ("during".toList) now)
            (save_record (progressUpdated r p pl nts now) s) := by
      simp [add_photo_to_record, h1]
    have h3 : get_record (save_record
          (photoAppended (progressUpdated r p pl nts now) img ("during".toList) now)
          (save_record (progressUpdated r p pl nts now) s)) rid
        = some (photoAppended (progressUpdated r p pl nts now) img ("during".toList) now) :=
      get_record_save_self hid''
    refine ⟨photoAppended (progressUpdated r p pl nts now) img ("during".toList) now, ?_,
      photoAppended_status _ _ _ _, ?_, ?_⟩
    · simp only [h2, h3, save_record_noop h3]
    · rw [photoAppended_fas, progressUpdated_fas]
    · rw [photoAppended_recovery, progressUpdated_progress]

/-- A store whose single record has been driven to status `"healing"`. -/
def storeHealing : Store :=
  applyOps
    [ .createSave ("r1".toList) ("t0".toList) ("cut".toList) ("SEVERE".toList)
        ("URGENT".toList) none none none none none
    , .updateProgress ("r1".toList) 50 none none none ("t1".toList) ] []

/-- Claim C1, counterexample: a successful `update_recovery_progress(id, 0)`
on a record currently in status `"healing"` leaves the status `"healing"`
(the `p == 0` case hits no branch of the `if/elif` chain), whereas the claim
requires status ACTIVE exactly when p = 0. -/
theorem update_progress_zero_cex :
    (update_recovery_progress storeHealing ("r1".toList) 0 none none none ("t2".toList)).1
      = true ∧
    ((get_record (update_recovery_progress storeHealing ("r1".toList) 0 none none none
        ("t2".toList)).2 ("r1".toList)).map (fun r => r.status))
      = some ("healing".toList) ∧
    ("healing".toList : Str) ≠ "active".toList := by
  refine ⟨by decide, by decide, by decide⟩

/-- Claim C1 as amended: immediately after a successful
`updateRecoveryProgress(id, p, ...)` the record's status is HEALED iff p≥100,
RECOVERING iff 75≤p<100 and HEALING iff 0<p<75 — provided p>0; when p=0 the
status is left unchanged (it equals the status before the call, which is
ACTIVE only if the record was already ACTIVE). -/
theorem update_progress_status_amended (s : Store) (rid : Str) (p : Int)
    (pl : Option Int) (nts : Option Str) (ph : Option Nat) (now : Str)
    (r r' : InjuryRecord)
    (h : get_record s rid = some r)
    (h2 : get_record (update_recovery_progress s rid p pl nts ph now).2 rid = some r') :
    (0 < p →
      ((r'.status = "healed".toList ↔ 100 ≤ p) ∧
       (r'.status = "recovering".toList ↔ 75 ≤ p ∧ p < 100) ∧
       (r'.status = "healing".toList ↔ 0 < p ∧ p < 75))) ∧
    (p = 0 → r'.status = r.status) := by
  obtain ⟨r'', hget, hstatus, -, -⟩ := update_recovery_progress_get h p pl nts ph now
  have hr : r' = r'' := by
    rw [hget] at h2
    exact (Option.some.injEq _ _ ▸ h2).symm
  subst hr
  rw [hstatus, progressUpdated_status]
  constructor
  · intro hp
    split_ifs with h100 h75
    · exact ⟨iff_of_true rfl h100, iff_of_false (by decide) (by omega),
        iff_of_false (by decide) (by omega)⟩
    · exact ⟨iff_of_false (by decide) (by omega),
        iff_of_true rfl ⟨by omega, by omega⟩,
        iff_of_false (by decide) (by omega)⟩
    · exact ⟨iff_of_false (by decide) (by omega),
        iff_of_false (by decide) (by omega),
        iff_of_true rfl ⟨hp, by omega⟩⟩
  · intro hp0
    subst hp0
    rw [if_neg (by omega), if_neg (by omega), if_neg (by omega)]

/-- Witness for the amended C1: progress 80 on a freshly created record. -/
theorem update_progress_status_amended_witness :
    (0 < (80 : Int) →
      (((progressUpdated witnessRecord 80 none none ("t1".toList)).status
          = "healed".toList ↔ 100 ≤ (80 : Int)) ∧
       ((progressUpdated witnessRecord 80 none none ("t1".toList)).status
          = "recovering".toList ↔ 75 ≤ (80 : Int) ∧ (80 : Int) < 100) ∧
       ((progressUpdated witnessRecord 80 none none ("t1".toList)).status
          = "healing".toList ↔ 0 < (80 : Int) ∧ (80 : Int) < 75))) ∧
    ((80 : Int) = 0 →
      (progressUpdated witnessRecord 80 none none ("t1".toList)).status
        = witnessRecord.status) :=
  update_progress_status_amended [witnessRecord] (witnessRecord.id) 80 none none none
    ("t1".toList) witnessRecord
    (progressUpdated witnessRecord 80 none none ("t1".toList))
    (by decide) (by decide)

/-! ## Invariants over reachable stores -/

/-- The completed-steps invariant of a record: every completed index is a
valid index into `recommended`, and no index is recorded twice. -/
def completedOK (r : InjuryRecord) : Prop :=
  (∀ i ∈ r.first_aid_steps.completed,
      0 ≤ i ∧ i < (r.first_aid_steps.recommended.length : Int)) ∧
  r.first_aid_steps.completed.Nodup

instance (r : InjuryRecord) : Decidable (completedOK r) := by
  unfold completedOK; infer_instance

def storeOK (s : Store) : Prop := ∀ r ∈ s, completedOK r

theorem completedOK_congr_fas {r r' : InjuryRecord}
    (h : r'.first_aid_steps = r.first_aid_steps) (hr : completedOK r) :
    completedOK r' := by
  unfold completedOK at hr ⊢
  rw [h]
  exact hr

theorem storeOK_save {s : Store} {r : InjuryRecord}
    (hr : completedOK r) (hs : storeOK s) : storeOK (save_record r s) := by
  intro r' hmem
  rcases mem_of_mem_save_record hmem with h | h
  · exact h ▸ hr
  · exact hs r' h

theorem completedOK_of_get {s : Store} {rid : Str} {r : InjuryRecord}
    (h : get_record s rid = some r) (hs : storeOK s) : completedOK r :=
  hs r (get_record_eq_some h).1

theorem completedOK_create (store : Store) (id now desc sev em : Str)
    (ai : Option Str) (fas : Option (List Str)) (bp loc : Option Str)
    (imgs : Option (List Nat)) :
    completedOK (create_injury_record store id now desc sev em ai fas bp loc imgs).1 := by
  constructor
  · intro i hi
    simp [create_injury_record] at hi
  · simp [create_injury_record]

theorem storeOK_add_photo {s : Store} (rid : Str) (img : Nat) (pt now : Str)
    (hs : storeOK s) : storeOK (add_photo_to_record s rid img pt now).2 := by
  cases hget : get_record s rid with
  | none => simpa [add_photo_to_record, hget] using hs
  | some r =>
    simp only [add_photo_to_record, hget]
    exact storeOK_save
      (completedOK_congr_fas (photoAppended_fas r img pt now) (completedOK_of_get hget hs)) hs

theorem storeOK_create_store {s : Store} (id now desc sev em : Str)
    (ai : Option Str) (fas : Option (List Str)) (bp loc : Option Str)
    (imgs : Option (List Nat)) (hs : storeOK s) :
    storeOK (create_injury_record s id now desc sev em ai fas bp loc imgs).2 := by
  cases imgs with
  | none => exact hs
  | some l =>
    simp only [create_injury_record]
    induction l generalizing s with
    | nil => exact hs
    | cons a as ih => exact ih (storeOK_add_photo _ _ _ _ hs)

theorem storeOK_final_save {s2 : Store} (rid : Str) {fallback : InjuryRecord}
    (h2 : storeOK s2) (hf : completedOK fallback) :
    storeOK (save_record (match get_record s2 rid with
      | some r => r
      | none => fallback) s2) := by
  cases hget2 : get_record s2 rid with
  | none =>
    simp only [hget2]
    exact storeOK_save hf h2
  | some r2 =>
    simp only [hget2]
    exact storeOK_save (completedOK_of_get hget2 h2) h2

theorem storeOK_update {s : Store} (rid : Str) (p : Int) (pl : Option Int)
    (nts : Option Str) (ph : Option Nat) (now : Str) (hs : storeOK s) :
    storeOK (update_recovery_progress s rid p pl nts ph now).2 := by
  cases hget : get_record s rid with
  | none => simpa [update_recovery_progress, hget] using hs
  | some r =>
    simp only [update_recovery_progress, hget]
    have hf : completedOK (progressUpdated r p pl nts now) :=
      completedOK_congr_fas (progressUpdated_fas r p pl nts now)
        (completedOK_of_get hget hs)
    have h1 : storeOK (save_record (progressUpdated r p pl nts now) s) :=
      storeOK_save hf hs
    cases ph with
    | none => exact storeOK_final_save rid h1 hf
    | some img => exact storeOK_final_save rid (storeOK_add_photo _ _ _ _ h1) hf

theorem storeOK_mark {s : Store} (rid : Str) (i : Int) (nts : Option Str)
    (now : Str) (hs : storeOK s) :
    storeOK (mark_first_aid_step_completed s rid i nts now).2 := by
  cases hget : get_record s rid with
  | none => simpa [mark_first_aid_step_completed, hget] using hs
  | some r =>
    simp only [mark_first_aid_step_completed, hget]
    by_cases hcond : 0 ≤ i ∧ i < (r.first_aid_steps.recommended.length : Int) ∧
        i ∉ r.first_aid_steps.completed
    · rw [if_pos hcond]
      obtain ⟨hb, hnd⟩ := completedOK_of_get hget hs
      refine storeOK_save ⟨?_, ?_⟩ hs
      · intro j hj
        simp only [stepMarked] at hj ⊢
        rcases List.mem_append.mp hj with hj | hj
        · exact hb j hj
        · rcases List.mem_singleton.mp hj with rfl
          exact ⟨hcond.1, hcond.2.1⟩
      · simp only [stepMarked, List.nodup_append, List.nodup_singleton, true_and]
        exact ⟨hnd, by simpa using hcond.2.2⟩
    · rw [if_neg hcond]
      exact hs

theorem completedOK_add_note {r : InjuryRecord} (ts content : Str)
    (hr : completedOK r) :
    completedOK { r with notes := r.notes ++ [{ timestamp := ts, content := content }] } :=
  completedOK_congr_fas rfl hr

theorem completedOK_add_med {r : InjuryRecord} (m : Medication)
    (hr : completedOK r) :
    completedOK { r with medications := r.medications ++ [m] } :=
  completedOK_congr_fas rfl hr

theorem storeOK_applyOp {s : Store} (op : StoreOp) (hs : storeOK s) :
    storeOK (applyOp s op) := by
  cases op with
  | createSave id now desc sev em ai steps bp loc imgs =>
    simp only [applyOp]
    exact storeOK_save (completedOK_create s id now desc sev em ai steps bp loc imgs)
      (storeOK_create_store id now desc sev em ai steps bp loc imgs hs)
  | updateProgress rid p pl nt ph now =>
    simp only [applyOp]
    exact storeOK_update _ _ _ _ _ _ hs
  | markStep rid i nt now =>
    simp only [applyOp]
    exact storeOK_mark _ _ _ _ hs
  | addNote rid content now =>
    cases hget : get_record s rid with
    | none => simpa [applyOp, add_note_to_record, hget] using hs
    | some r =>
      simp only [applyOp, add_note_to_record, hget]
      exact storeOK_save (completedOK_add_note _ _ (completedOK_of_get hget hs)) hs
  | addMed rid name dosage freq now =>
    cases hget : get_record s rid with
    | none => simpa [applyOp, add_medication, hget] using hs
    | some r =>
      simp only [applyOp, add_medication, hget]
      exact storeOK_save (completedOK_add_med _ (completedOK_of_get hget hs)) hs
  | addPhoto rid img pt now =>
    simp only [applyOp]
    exact storeOK_add_photo _ _ _ _ hs
  | deleteRec rid =>
    intro r hmem
    simp only [applyOp, delete_record] at hmem
    exact hs r (List.mem_of_mem_filter hmem)

theorem storeOK_applyOps (ops : List StoreOp) {s : Store} (hs : storeOK s) :
    storeOK (applyOps ops s) := by
  induction ops generalizing s with
  | nil => exact hs
  | cons op rest ih => exact ih (storeOK_applyOp op hs)

theorem stepMarked_id (r : InjuryRecord) (i : Int) (nts : Option Str) (now : Str) :
    (stepMarked r i nts now).id = r.id := rfl

theorem stepMarked_completed (r : InjuryRecord) (i : Int) (nts : Option Str) (now : Str) :
    (stepMarked r i nts now).first_aid_steps.completed
      = r.first_aid_steps.completed ++ [i] := rfl

/-- Claim C7: on every store reachable from the empty session store by the
store's operations, (1) every record's completed indices are valid indices
into its recommended steps with no duplicates; (2) `markFirstAidStepCompleted`
with an invalid or already-completed index returns `False` and leaves the
store unchanged; (3) after a successful call, calling again with the same
index leaves that index recorded exactly once. -/
theorem mark_step_invariants (ops : List StoreOp) :
    (∀ r ∈ applyOps ops [], completedOK r) ∧
    (∀ (rid : Str) (i : Int) (nts : Option Str) (now : Str) (r : InjuryRecord),
      get_record (applyOps ops []) rid = some r →
      ¬(0 ≤ i ∧ i < (r.first_aid_steps.recommended.length : Int) ∧
          i ∉ r.first_aid_steps.completed) →
      mark_first_aid_step_completed (applyOps ops []) rid i nts now
        = (false, applyOps ops [])) ∧
    (∀ (rid : Str) (i : Int) (n1 : Option Str) (t1 : Str) (n2 : Option Str) (t2 : Str),
      (mark_first_aid_step_completed (applyOps ops []) rid i n1 t1).1 = true →
      ∀ r2 : InjuryRecord,
        get_record (mark_first_aid_step_completed
          (mark_first_aid_step_completed (applyOps ops []) rid i n1 t1).2
          rid i n2 t2).2 rid = some r2 →
        r2.first_aid_steps.completed.count i = 1) := by
  refine ⟨storeOK_applyOps ops (fun r h => absurd h (List.not_mem_nil r)), ?_, ?_⟩
  · intro rid i nts now r hget hcond
    simp only [mark_first_aid_step_completed, hget, if_neg hcond]
  · intro rid i n1 t1 n2 t2 hsucc r2 hget2
    set s := applyOps ops [] with hsdef
    cases hget : get_record s rid with
    | none => simp [mark_first_aid_step_completed, hget] at hsucc
    | some r =>
      by_cases hcond : 0 ≤ i ∧ i < (r.first_aid_steps.recommended.length : Int) ∧
          i ∉ r.first_aid_steps.completed
      · -- first call succeeded and stored the appended record
        have hrid : r.id = rid := (get_record_eq_some hget).2
        simp only [mark_first_aid_step_completed, hget, if_pos hcond] at hget2
        have hmid : (stepMarked r i n1 t1).id = rid := by rw [stepMarked_id]; exact hrid
        have hg1 := get_record_save_self (s := s) hmid
        simp only [hg1] at hget2
        have hcond2 : ¬(0 ≤ i ∧
            i < ((stepMarked r i n1 t1).first_aid_steps.recommended.length : Int) ∧
            i ∉ (stepMarked r i n1 t1).first_aid_steps.completed) := by
          intro hc
          exact hc.2.2 (by rw [stepMarked_completed]; simp)
        rw [if_neg hcond2] at hget2
        have hget3 : get_record (save_record (stepMarked r i n1 t1) s) rid = some r2 := hget2
        rw [hg1] at hget3
        have hr2 : r2 = stepMarked r i n1 t1 := by injection hget3.symm
        subst hr2
        rw [stepMarked_completed, List.count_append]
        have h0 : r.first_aid_steps.completed.count i = 0 :=
          List.count_eq_zero.mpr hcond.2.2
        simp [h0]
      · simp [mark_first_aid_step_completed, hget, if_neg hcond] at hsucc

/-- Operations building a store with two recommended steps (witnessing C7). -/
def opsTwoSteps : List StoreOp :=
  [ .createSave ("r1".toList) ("t0".toList) ("cut".toList) ("MINOR".toList)
      ("ROUTINE".toList) none (some [("wash".toList), ("bandage".toList)])
      none none none ]

/-- A reachable store with two recommended steps for witnessing C7. -/
def storeTwoSteps : Store := applyOps opsTwoSteps []

/-- Witness for C7: the invariant holds for the created record; marking step 5
is rejected; marking step 0 twice records it once. -/
theorem mark_step_invariants_witness :
    completedOK ((get_record storeTwoSteps ("r1".toList)).getD witnessRecord) ∧
    mark_first_aid_step_completed storeTwoSteps ("r1".toList) 5 none ("t1".toList)
      = (false, storeTwoSteps) ∧
    ((get_record (mark_first_aid_step_completed
        (mark_first_aid_step_completed storeTwoSteps ("r1".toList) 0 none ("t1".toList)).2
        ("r1".toList) 0 none ("t2".toList)).2 ("r1".toList)).getD
          witnessRecord).first_aid_steps.completed.count 0 = 1 :=
  ⟨(mark_step_invariants opsTwoSteps).1 _ (by decide),
   (mark_step_invariants opsTwoSteps).2.1 ("r1".toList) 5 none ("t1".toList)
     ((get_record storeTwoSteps ("r1".toList)).getD witnessRecord) (by decide) (by decide),
   (mark_step_invariants opsTwoSteps).2.2 ("r1".toList) 0 none ("t1".toList) none ("t2".toList)
     (by decide) _ (by decide)⟩

/-! ## Progress-range invariant (C9) -/

/-- The claimed invariant: `progress_percentage ∈ [0, 100]`. -/
def progressInRange (r : InjuryRecord) : Prop :=
  0 ≤ r.recovery.progress_percentage ∧ r.recovery.progress_percentage ≤ 100

instance (r : InjuryRecord) : Decidable (progressInRange r) := by
  unfold progressInRange; infer_instance

def storeProgressOK (s : Store) : Prop := ∀ r ∈ s, progressInRange r

/-- An operation respects the documented input range when any progress value
it passes to `update_recovery_progress` lies in `[0, 100]`. -/
def opProgressBounded : StoreOp → Prop
  | .updateProgress _ p _ _ _ _ => 0 ≤ p ∧ p ≤ 100
  | _ => True

theorem progressInRange_congr {r r' : InjuryRecord}
    (h : r'.recovery = r.recovery) (hr : progressInRange r) : progressInRange r' := by
  unfold progressInRange at hr ⊢
  rw [h]
  exact hr

theorem storeProgressOK_save {s : Store} {r : InjuryRecord}
    (hr : progressInRange r) (hs : storeProgressOK s) :
    storeProgressOK (save_record r s) := by
  intro r' hmem
  rcases mem_of_mem_save_record hmem with h | h
  · exact h ▸ hr
  · exact hs r' h

theorem progressInRange_of_get {s : Store} {rid : Str} {r : InjuryRecord}
    (h : get_record s rid = some r) (hs : storeProgressOK s) : progressInRange r :=
  hs r (get_record_eq_some h).1

theorem progressInRange_create (store : Store) (id now desc sev em : Str)
    (ai : Option Str) (fas : Option (List Str)) (bp loc : Option Str)
    (imgs : Option (List Nat)) :
    progressInRange (create_injury_record store id now desc sev em ai fas bp loc imgs).1 := by
  constructor <;> simp [create_injury_record]

theorem storeProgressOK_add_photo {s : Store} (rid : Str) (img : Nat) (pt now : Str)
    (hs : storeProgressOK s) : storeProgressOK (add_photo_to_record s rid img pt now).2 := by
  cases hget : get_record s rid with
  | none => simpa [add_photo_to_record, hget] using hs
  | some r =>
    simp only [add_photo_to_record, hget]
    exact storeProgressOK_save
      (progressInRange_congr (photoAppended_recovery r img pt now)
        (progressInRange_of_get hget hs)) hs

theorem storeProgressOK_create_store {s : Store} (id now desc sev em : Str)
    (ai : Option Str) (fas : Option (List Str)) (bp loc : Option Str)
    (imgs : Option (List Nat)) (hs : storeProgressOK s) :
    storeProgressOK (create_injury_record s id now desc sev em ai fas bp loc imgs).2 := by
  cases imgs with
  | none => exact hs
  | some l =>
    simp only [create_injury_record]
    induction l generalizing s with
    | nil => exact hs
    | cons a as ih => exact ih (storeProgressOK_add_photo _ _ _ _ hs)

theorem storeProgressOK_final_save {s2 : Store} (rid : Str) {fallback : InjuryRecord}
    (h2 : storeProgressOK s2) (hf : progressInRange fallback) :
    storeProgressOK (save_record (match get_record s2 rid with
      | some r => r
      | none => fallback) s2) := by
  cases hget2 : get_record s2 rid with
  | none =>
    simp only [hget2]
    exact storeProgressOK_save hf h2
  | some r2 =>
    simp only [hget2]
    exact storeProgressOK_save (progressInRange_of_get hget2 h2) h2

theorem storeProgressOK_update {s : Store} (rid : Str) {p : Int} (pl : Option Int)
    (nts : Option Str) (ph : Option Nat) (now : Str)
    (hp : 0 ≤ p ∧ p ≤ 100) (hs : storeProgressOK s) :
    storeProgressOK (update_recovery_progress s rid p pl nts ph now).2 := by
  cases hget : get_record s rid with
  | none => simpa [update_recovery_progress, hget] using hs
  | some r =>
    simp only [update_recovery_progress, hget]
    have hf : progressInRange (progressUpdated r p pl nts now) := by
      unfold progressInRange
      rw [progressUpdated_progress]
      exact hp
    have h1 : storeProgressOK (save_record (progressUpdated r p pl nts now) s) :=
      storeProgressOK_save hf hs
    cases ph with
    | none => exact storeProgressOK_final_save rid h1 hf
    | some img => exact storeProgressOK_final_save rid (storeProgressOK_add_photo _ _ _ _ h1) hf

theorem progressInRange_stepMarked {r : InjuryRecord} (i : Int) (nts : Option Str)
    (now : Str) (hr : progressInRange r) : progressInRange (stepMarked r i nts now) :=
  progressInRange_congr rfl hr

theorem progressInRange_add_note {r : InjuryRecord} (ts content : Str)
    (hr : progressInRange r) :
    progressInRange { r with notes := r.notes ++ [{ timestamp := ts, content := content }] } :=
  progressInRange_congr rfl hr

theorem progressInRange_add_med {r : InjuryRecord} (m : Medication)
    (hr : progressInRange r) :
    progressInRange { r with medications := r.medications ++ [m] } :=
  progressInRange_congr rfl hr

theorem storeProgressOK_applyOp {s : Store} {op : StoreOp}
    (hop : opProgressBounded op) (hs : storeProgressOK s) :
    storeProgressOK (applyOp s op) := by
  cases op with
  | createSave id now desc sev em ai steps bp loc imgs =>
    simp only [applyOp]
    exact storeProgressOK_save (progressInRange_create s id now desc sev em ai steps bp loc imgs)
      (storeProgressOK_create_store id now desc sev em ai steps bp loc imgs hs)
  | updateProgress rid p pl nt ph now =>
    simp only [applyOp]
    exact storeProgressOK_update _ _ _ _ _ hop hs
  | markStep rid i nt now =>
    simp only [applyOp]
    cases hget : get_record s rid with
    | none => simpa [mark_first_aid_step_completed, hget] using hs
    | some r =>
      simp only [mark_first_aid_step_completed, hget]
      by_cases hcond : 0 ≤ i ∧ i < (r.first_aid_steps.recommended.length : Int) ∧
          i ∉ r.first_aid_steps.completed
      · rw [if_pos hcond]
        exact storeProgressOK_save
          (progressInRange_stepMarked i nt now (progressInRange_of_get hget hs)) hs
      · rw [if_neg hcond]
        exact hs
  | addNote rid content now =>
    cases hget : get_record s rid with
    | none => simpa [applyOp, add_note_to_record, hget] using hs
    | some r =>
      simp only [applyOp, add_note_to_record, hget]
      exact storeProgressOK_save (progressInRange_add_note _ _ (progressInRange_of_get hget hs)) hs
  | addMed rid name dosage freq now =>
    cases hget : get_record s rid with
    | none => simpa [applyOp, add_medication, hget] using hs
    | some r =>
      simp only [applyOp, add_medication, hget]
      exact storeProgressOK_save (progressInRange_add_med _ (progressInRange_of_get hget hs)) hs
  | addPhoto rid img pt now =>
    simp only [applyOp]
    exact storeProgressOK_add_photo _ _ _ _ hs
  | deleteRec rid =>
    intro r hmem
    simp only [applyOp, delete_record] at hmem
    exact hs r (List.mem_of_mem_filter hmem)

/-- A store whose record was updated with an out-of-range progress of 150. -/
def storeOverProgress : Store :=
  applyOps
    [ .createSave ("r1".toList) ("t0".toList) ("cut".toList) ("SEVERE".toList)
        ("URGENT".toList) none none none none none
    , .updateProgress ("r1".toList) 150 none none none ("t1".toList) ] []

/-- Claim C9, counterexample: the store does not clamp — after
`update_recovery_progress(id, 150)` the stored progress is 150 ∉ [0, 100]. -/
theorem progress_range_cex :
    ((get_record storeOverProgress ("r1".toList)).map
        (fun r => r.recovery.progress_percentage)) = some 150 ∧
    ¬((150 : Int) ≤ 100) := by
  refine ⟨by decide, by decide⟩

/-- Claim C9 as amended: on every store reachable from the empty store by
operations whose progress inputs lie in `[0, 100]` (the range §4.3 obliges
callers to respect), every record's `progress_percentage` lies in `[0, 100]`. -/
theorem progress_range_amended (ops : List StoreOp)
    (hops : ∀ op ∈ ops, opProgressBounded op) :
    ∀ r ∈ applyOps ops [], 0 ≤ r.recovery.progress_percentage ∧
      r.recovery.progress_percentage ≤ 100 := by
  have : ∀ (s : Store), storeProgressOK s → storeProgressOK (applyOps ops s) := by
    induction ops with
    | nil => exact fun s hs => hs
    | cons op rest ih =>
      intro s hs
      exact ih (fun op' h' => hops op' (List.mem_cons_of_mem _ h')) (applyOp s op)
        (storeProgressOK_applyOp (hops op (List.mem_cons_self _ _)) hs)
  exact this [] (fun r h => absurd h (List.not_mem_nil r))

/-- Operations with bounded progress inputs for witnessing C9. -/
def opsBounded : List StoreOp :=
  [ .createSave ("r1".toList) ("t0".toList) ("cut".toList) ("SEVERE".toList)
      ("URGENT".toList) none none none none none
  , .updateProgress ("r1".toList) 80 none none none ("t1".toList) ]

/-- Witness for the amended C9: a create followed by a bounded update keeps
the stored record's progress inside `[0, 100]`. -/
theorem progress_range_amended_witness :
    0 ≤ ((get_record (applyOps opsBounded []) ("r1".toList)).getD
        witnessRecord).recovery.progress_percentage ∧
    ((get_record (applyOps opsBounded []) ("r1".toList)).getD
        witnessRecord).recovery.progress_percentage ≤ 100 :=
  progress_range_amended opsBounded
    (by
      intro op hop
      rcases List.mem_cons.mp hop with h | h
      · subst h; exact trivial
      · rcases List.mem_cons.mp h with h' | h'
        · subst h'
          exact ⟨by norm_num, by norm_num⟩
        · exact absurd h' (List.not_mem_nil _))
    ((get_record (applyOps opsBounded []) ("r1".toList)).getD witnessRecord)
    (by decide)

/-- Claim C10: for every geocoder oracle, parsing the line
`"1. City Hospital | 100 Main St, Austin, TX | 30.2672, -97.7431"` yields
exactly one facility with the pipe-delimited fields and the exact
coordinates, with zero geocoder invocations — strategy 1 fires before any
other extraction strategy can run. -/
theorem parse_pipe_line_city_hospital (geo : Str → Option (ℚ × ℚ)) :
    parse_facilities_to_df geo
      ("1. City Hospital | 100 Main St, Austin, TX | 30.2672, -97.7431".toList)
    = ([{ name := "City Hospital".toList
        , address := "100 Main St, Austin, TX".toList
        , lat := some (30.2672 : ℚ)
        , lon := some (-97.7431 : ℚ) }], 0) := by
  have hstep : parse_facilities_to_df geo
      ("1. City Hospital | 100 Main St, Austin, TX | 30.2672, -97.7431".toList)
    = ([{ name := "City Hospital".toList
        , address := "100 Main St, Austin, TX".toList
        , lat := some (decToRat false ("30".toList) ("2672".toList))
        , lon := some (decToRat true ("97".toList) ("7431".toList)) }], 0) := rfl
  have hlat : decToRat false ("30".toList) ("2672".toList) = (30.2672 : ℚ) := by
    norm_num [decToRat, digitsToNat, show '0'.toNat - 48 = 0 from rfl,
      show '2'.toNat - 48 = 2 from rfl, show '3'.toNat - 48 = 3 from rfl,
      show '6'.toNat - 48 = 6 from rfl, show '7'.toNat - 48 = 7 from rfl]
  have hlon : decToRat true ("97".toList) ("7431".toList) = (-97.7431 : ℚ) := by
    norm_num [decToRat, digitsToNat, show '9'.toNat - 48 = 9 from rfl,
      show '7'.toNat - 48 = 7 from rfl, show '4'.toNat - 48 = 4 from rfl,
      show '3'.toNat - 48 = 3 from rfl, show '1'.toNat - 48 = 1 from rfl]
  rw [hstep, hlat, hlon]

/-! ## Idempotence of step-list extraction (C6) -/

theorem dropWhile_head_false {α : Type} {p : α → Bool} :
    ∀ {l : List α} {c : α} {cs : List α}, List.dropWhile p l = c :: cs → p c = false := by
  intro l
  induction l with
  | nil => intro c cs h; simp [List.dropWhile] at h
  | cons a l ih =>
    intro c cs h
    rw [List.dropWhile_cons] at h
    by_cases hp : p a
    · rw [if_pos hp] at h
      exact ih h
    · rw [if_neg hp] at h
      cases h
      simpa using hp

theorem dropWhile_headq_false {α : Type} {p : α → Bool} {l : List α} {c : α}
    (h : (List.dropWhile p l).head? = some c) : p c = false := by
  cases hd : List.dropWhile p l with
  | nil => rw [hd] at h; simp at h
  | cons a as =>
    rw [hd] at h
    simp only [List.head?_cons, Option.some.injEq] at h
    exact h ▸ dropWhile_head_false hd

theorem rstripP_pref (p : Char → Bool) (s : Str) : rstripP p s <+: s := by
  have h1 : (s.reverse.dropWhile p) <:+ s.reverse := List.dropWhile_suffix p
  have h2 : ((s.reverse.dropWhile p).reverse).reverse <:+ s.reverse := by
    simpa using h1
  have := List.reverse_suffix.mp h2
  exact this

/-- No whitespace at either edge (the shape of a `.strip()` result). -/
def NoEdgeWs (s : Str) : Prop :=
  (∀ c, s.head? = some c → pyIsSpace c = false) ∧
  (∀ c, s.getLast? = some c → pyIsSpace c = false)

theorem pyStrip_noEdgeWs (l : Str) : NoEdgeWs (pyStrip l) := by
  constructor
  · intro c hc
    unfold pyStrip at hc
    cases hres : rstripP pyIsSpace (lstripP pyIsSpace l) with
    | nil => rw [hres] at hc; simp at hc
    | cons a as =>
      rw [hres] at hc
      simp only [List.head?_cons, Option.some.injEq] at hc
      obtain ⟨t, ht⟩ := rstripP_pref pyIsSpace (lstripP pyIsSpace l)
      rw [hres] at ht
      have hdw : List.dropWhile pyIsSpace l = a :: (as ++ t) := by
        simpa [lstripP] using ht.symm
      rw [← hc]
      exact dropWhile_head_false hdw
  · intro c hc
    unfold pyStrip rstripP at hc
    rw [List.getLast?_reverse] at hc
    exact dropWhile_headq_false hc

theorem noEdgeWs_pyStrip_eq {s : Str} (h : NoEdgeWs s) : pyStrip s = s := by
  obtain ⟨h1, h2⟩ := h
  have hl : lstripP pyIsSpace s = s := by
    cases s with
    | nil => rfl
    | cons c cs =>
      have := h1 c rfl
      simp [lstripP, List.dropWhile_cons, this]
  have hr : rstripP pyIsSpace s = s := by
    unfold rstripP
    cases hrev : s.reverse with
    | nil => simpa using congrArg List.reverse hrev
    | cons c cs =>
      have hc : s.getLast? = some c := by
        rw [← List.head?_reverse, hrev, List.head?_cons]
      have := h2 c hc
      rw [List.dropWhile_cons, if_neg (by simp [this]), ← hrev]
      exact List.reverse_reverse s
  unfold pyStrip
  rw [hl, hr]

theorem pyStrip_sublist (s : Str) : List.Sublist (pyStrip s) s := by
  unfold pyStrip
  have h1 : List.Sublist (rstripP pyIsSpace (lstripP pyIsSpace s)) (lstripP pyIsSpace s) :=
    (rstripP_pref pyIsSpace _).sublist
  exact h1.trans (List.dropWhile_sublist pyIsSpace)

theorem splitNl_ne_nil (t : Str) : splitNl t ≠ [] := by
  cases t with
  | nil => simp [splitNl]
  | cons c cs =>
    by_cases h : c = '\n'
    · simp [splitNl, h]
    · simp only [splitNl, if_neg h]
      cases splitNl cs <;> simp

theorem not_nl_mem_splitNl : ∀ {t l : Str}, l ∈ splitNl t → '\n' ∉ l := by
  intro t
  induction t with
  | nil =>
    intro l hl
    simp [splitNl] at hl
    simp [hl]
  | cons c cs ih =>
    intro l hl
    by_cases h : c = '\n'
    · rw [splitNl, if_pos h] at hl
      rcases List.mem_cons.mp hl with rfl | hl
      · simp
      · exact ih hl
    · rw [splitNl, if_neg h] at hl
      cases hsp : splitNl cs with
      | nil => exact absurd hsp (splitNl_ne_nil cs)
      | cons l0 ls =>
        rw [hsp] at hl
        rcases List.mem_cons.mp hl with rfl | hl
        · intro hmem
          rcases List.mem_cons.mp hmem with hc | hmem
          · exact h hc.symm
          · exact ih (hsp ▸ List.mem_cons_self l0 ls) hmem
        · exact ih (hsp ▸ List.mem_cons_of_mem l0 hl)

theorem splitNl_of_no_nl : ∀ {l : Str}, '\n' ∉ l → splitNl l = [l] := by
  intro l
  induction l with
  | nil => intro _; rfl
  | cons c cs ih =>
    intro h
    have hc : ¬ c = '\n' := fun hc => h (hc ▸ List.mem_cons_self c cs)
    have hcs : '\n' ∉ cs := fun hm => h (List.mem_cons_of_mem c hm)
    rw [splitNl, if_neg hc, ih hcs]

theorem splitNl_append_nl : ∀ {l : Str} (t : Str), '\n' ∉ l →
    splitNl (l ++ '\n' :: t) = l :: splitNl t := by
  intro l
  induction l with
  | nil => intro t _; simp [splitNl]
  | cons c cs ih =>
    intro t h
    have hc : ¬ c = '\n' := fun hc => h (hc ▸ List.mem_cons_self c cs)
    have hcs : '\n' ∉ cs := fun hm => h (List.mem_cons_of_mem c hm)
    rw [List.cons_append, splitNl, if_neg hc]
    have hih := ih t hcs
    simp only [List.append_eq] at hih ⊢
    rw [hih]

theorem splitNl_joinNl : ∀ {ls : List Str}, (∀ l ∈ ls, '\n' ∉ l) → ls ≠ [] →
    splitNl (joinNl ls) = ls := by
  intro ls
  induction ls with
  | nil => intro _ h; exact absurd rfl h
  | cons l rest ih =>
    intro hall _
    cases rest with
    | nil => exact splitNl_of_no_nl (hall l (List.mem_cons_self _ _))
    | cons l' rest' =>
      show splitNl (l ++ '\n' :: joinNl (l' :: rest')) = _
      rw [splitNl_append_nl _ (hall l (List.mem_cons_self _ _))]
      rw [ih (fun x hx => hall x (List.mem_cons_of_mem _ hx)) (by simp)]

theorem mem_natCharsAux_isDigit :
    ∀ (fuel n : Nat) (c : Char), c ∈ natCharsAux fuel n → c.isDigit = true := by
  intro fuel
  induction fuel with
  | zero => intro n c hc; simp [natCharsAux] at hc
  | succ fuel ih =>
    intro n c hc
    rw [natCharsAux] at hc
    by_cases h : n < 10
    · rw [if_pos h] at hc
      rcases List.mem_singleton.mp hc with rfl
      interval_cases n <;> decide
    · rw [if_neg h] at hc
      rcases List.mem_append.mp hc with hc | hc
      · exact ih _ c hc
      · rcases List.mem_singleton.mp hc with rfl
        have : n % 10 < 10 := Nat.mod_lt _ (by norm_num)
        set d := n % 10 with hd
        interval_cases d <;> decide

theorem mem_natChars_isDigit (n : Nat) (c : Char) (hc : c ∈ natChars n) :
    c.isDigit = true :=
  mem_natCharsAux_isDigit (n + 1) n c hc

theorem natChars_ne_nil (n : Nat) : natChars n ≠ [] := by
  unfold natChars natCharsAux
  split_ifs
  · simp
  · simp

theorem isDigit_not_pyIsSpace {c : Char} (h : c.isDigit = true) : pyIsSpace c = false := by
  simp only [pyIsSpace, Bool.or_eq_false_iff, decide_eq_false_iff_not]
  refine ⟨⟨⟨⟨⟨?_, ?_⟩, ?_⟩, ?_⟩, ?_⟩, ?_⟩ <;>
    (intro hc; subst hc; exact absurd h (by decide))

theorem isDigit_inStripSet {c : Char} (h : c.isDigit = true) : inStripSet c = true := by
  simp [inStripSet, h]

theorem isDigit_ne_nl {c : Char} (h : c.isDigit = true) : c ≠ '\n' := by
  intro hc; subst hc; exact absurd h (by decide)

theorem dropWhile_append_all {α : Type} {p : α → Bool} :
    ∀ {xs ys : List α}, (∀ x ∈ xs, p x = true) →
      List.dropWhile p (xs ++ ys) = List.dropWhile p ys := by
  intro xs
  induction xs with
  | nil => intro ys _; rfl
  | cons a xs ih =>
    intro ys h
    rw [List.cons_append, List.dropWhile_cons,
      if_pos (h a (List.mem_cons_self _ _))]
    exact ih (fun x hx => h x (List.mem_cons_of_mem _ hx))

theorem getLast?_append_right {α : Type} {l₁ l₂ : List α} (h : l₂ ≠ []) :
    (l₁ ++ l₂).getLast? = l₂.getLast? := by
  rw [List.getLast?_append]
  cases hc : l₂.getLast? with
  | none => exact absurd (List.getLast?_eq_none_iff.mp hc) h
  | some a => rfl

theorem cleanStep_eq_of_strip {line : Str} {c : Char} {cs : Str}
    (h : pyStrip line = c :: cs) :
    cleanStep line =
      if (c.isDigit || c = '•' || c = '-' || c = '*') then
        (if pyStrip (lstripP inStripSet (c :: cs)) = [] then none
         else some (pyStrip (lstripP inStripSet (c :: cs))))
      else none := by
  unfold cleanStep
  rw [h]

theorem cleanStep_nil_of_strip {line : Str} (h : pyStrip line = []) :
    cleanStep line = none := by
  unfold cleanStep
  rw [h]

/-- Cleaning a numbered line `⟨digits⟩. ⟨s⟩` recovers `s` whenever `s` is a
non-empty stripped string whose first character is outside the strip set. -/
theorem cleanStep_numbered (i : Nat) {s : Str} (hne : s ≠ [])
    (hEdge : NoEdgeWs s)
    (hStrip : ∀ c, s.head? = some c → inStripSet c = false) :
    cleanStep (natChars i ++ '.' :: ' ' :: s) = some s := by
  obtain ⟨d, ds, hnat⟩ : ∃ d ds, natChars i = d :: ds := by
    cases h : natChars i with
    | nil => exact absurd h (natChars_ne_nil i)
    | cons d ds => exact ⟨d, ds, rfl⟩
  have hddig : d.isDigit = true :=
    mem_natChars_isDigit i d (hnat ▸ List.mem_cons_self _ _)
  have hline : natChars i ++ '.' :: ' ' :: s = d :: (ds ++ '.' :: ' ' :: s) := by
    rw [hnat]; rfl
  have hNoEdge : NoEdgeWs (natChars i ++ '.' :: ' ' :: s) := by
    constructor
    · intro c hc
      rw [hline] at hc
      simp only [List.head?_cons, Option.some.injEq] at hc
      rw [← hc]
      exact isDigit_not_pyIsSpace hddig
    · intro c hc
      rw [getLast?_append_right (by simp)] at hc
      rw [show ('.' :: ' ' :: s : Str) = ['.', ' '] ++ s from rfl,
        getLast?_append_right hne] at hc
      exact hEdge.2 c hc
  have hstrip_line : pyStrip (natChars i ++ '.' :: ' ' :: s)
      = natChars i ++ '.' :: ' ' :: s := noEdgeWs_pyStrip_eq hNoEdge
  have hstrip_line' : pyStrip (natChars i ++ '.' :: ' ' :: s)
      = d :: (ds ++ '.' :: ' ' :: s) := by rw [hstrip_line, hline]
  have hlstrip : lstripP inStripSet (natChars i ++ '.' :: ' ' :: s) = s := by
    unfold lstripP
    rw [dropWhile_append_all (fun x hx => isDigit_inStripSet (mem_natChars_isDigit i x hx))]
    rw [List.dropWhile_cons, if_pos (by decide), List.dropWhile_cons, if_pos (by decide)]
    cases hsc : s with
    | nil => exact absurd hsc hne
    | cons c0 cs0 =>
      have hc0 : inStripSet c0 = false := hStrip c0 (by rw [hsc]; rfl)
      rw [List.dropWhile_cons, if_neg (by simp [hc0])]
  have hinner : pyStrip (lstripP inStripSet (d :: (ds ++ '.' :: ' ' :: s))) = s := by
    rw [← hline, hlstrip]
    exact noEdgeWs_pyStrip_eq hEdge
  rw [cleanStep_eq_of_strip hstrip_line', if_pos (by simp [hddig]), hinner, if_neg hne]

/-- Shape facts about every extracted step. -/
theorem extractSteps_mem {t s : Str} (h : s ∈ extractSteps t) :
    s ≠ [] ∧ NoEdgeWs s ∧ '\n' ∉ s := by
  unfold extractSteps at h
  obtain ⟨line, hlineMem, hclean⟩ := List.mem_filterMap.mp h
  cases hps : pyStrip line with
  | nil => rw [cleanStep_nil_of_strip hps] at hclean; simp at hclean
  | cons c cs =>
    rw [cleanStep_eq_of_strip hps] at hclean
    by_cases hg : (c.isDigit || c = '•' || c = '-' || c = '*') = true
    · rw [if_pos hg] at hclean
      by_cases hz : pyStrip (lstripP inStripSet (c :: cs)) = []
      · rw [if_pos hz] at hclean; simp at hclean
      · rw [if_neg hz] at hclean
        have hseq : s = pyStrip (lstripP inStripSet (c :: cs)) := by
          simpa using hclean.symm
        subst hseq
        refine ⟨hz, pyStrip_noEdgeWs _, ?_⟩
        have hsub : List.Sublist (pyStrip (lstripP inStripSet (c :: cs))) line :=
          ((pyStrip_sublist _).trans (List.dropWhile_sublist _)).trans
            (hps ▸ pyStrip_sublist line)
        exact fun hm => not_nl_mem_splitNl hlineMem (hsub.subset hm)
    · rw [if_neg hg] at hclean; simp at hclean

theorem mem_numberFrom_no_nl {steps : List Str}
    (hsteps : ∀ s ∈ steps, '\n' ∉ s) :
    ∀ (i : Nat), ∀ l ∈ numberFrom i steps, '\n' ∉ l := by
  induction steps with
  | nil => intro i l hl; simp [numberFrom] at hl
  | cons s ss ih =>
    intro i l hl
    rw [numberFrom] at hl
    rcases List.mem_cons.mp hl with rfl | hl
    · intro hm
      rcases List.mem_append.mp hm with hm | hm
      · exact absurd (mem_natChars_isDigit i _ hm) (by decide)
      · rcases List.mem_cons.mp hm with hc | hm
        · exact absurd hc (by decide)
        · rcases List.mem_cons.mp hm with hc | hm
          · exact absurd hc (by decide)
          · exact hsteps s (List.mem_cons_self _ _) hm
    · exact ih (fun x hx => hsteps x (List.mem_cons_of_mem _ hx)) (i + 1) l hl

theorem numberFrom_ne_nil {steps : List Str} (h : steps ≠ []) (i : Nat) :
    numberFrom i steps ≠ [] := by
  cases steps with
  | nil => exact absurd rfl h
  | cons s ss => simp [numberFrom]

/-- Decidable form of "the step does not begin with an enumerator character":
true when the step is empty or its first character is outside the strip set. -/
def headNotStrip : Str → Bool
  | [] => true
  | c :: _ => !inStripSet c

theorem headNotStrip_spec {s : Str} (h : headNotStrip s = true) :
    ∀ c, s.head? = some c → inStripSet c = false := by
  cases s with
  | nil => intro c hc; simp at hc
  | cons a as =>
    intro c hc
    simp only [List.head?_cons, Option.some.injEq] at hc
    rw [← hc]
    simpa [headNotStrip] using h

theorem filterMap_numberFrom {steps : List Str}
    (hIn : ∀ s ∈ steps, s ≠ [] ∧ NoEdgeWs s)
    (hStrip : ∀ s ∈ steps, headNotStrip s = true) :
    ∀ (i : Nat), List.filterMap cleanStep (numberFrom i steps) = steps := by
  induction steps with
  | nil => intro i; rfl
  | cons s ss ih =>
    intro i
    rw [numberFrom]
    have hcs : cleanStep (natChars i ++ '.' :: ' ' :: s) = some s :=
      cleanStep_numbered i (hIn s (List.mem_cons_self _ _)).1
        (hIn s (List.mem_cons_self _ _)).2
        (headNotStrip_spec (hStrip s (List.mem_cons_self _ _)))
    simp only [List.filterMap_cons, hcs]
    rw [ih (fun x hx => hIn x (List.mem_cons_of_mem _ hx))
      (fun x hx => hStrip x (List.mem_cons_of_mem _ hx)) (i + 1)]

/-- A multi-line text on which step extraction is not idempotent: the second
line's tab hides a second enumerator, so the first extraction yields
`"2. foo"` and re-extraction of the re-numbered output strips it to `"foo"`. -/
def tabStepText : Str := "1\t2. foo".toList

/-- Claim C6, counterexample: extraction is not idempotent on its own output.
On `"1\t2. foo"` the first extraction yields the single step `"2. foo"`, but
re-running the extraction on the joined, re-numbered output `"1. 2. foo"`
yields `"foo"`. -/
theorem step_extract_not_idem :
    extractSteps tabStepText = [("2. foo".toList)] ∧
    extractSteps (renumberSteps (extractSteps tabStepText)) = [("foo".toList)] ∧
    extractSteps (renumberSteps (extractSteps tabStepText)) ≠ extractSteps tabStepText := by
  refine ⟨by decide, by decide, by decide⟩

/-- Claim C6 as amended: step-list extraction is idempotent on its own output
for every multi-line input whose extracted steps do not begin with an
enumerator character (a digit or one of `. • - * )` — a step can only begin
with one after non-space whitespace such as a tab inside the original line):
re-running the extraction on the joined, re-numbered steps yields the same
step texts in the same order. -/
theorem step_extract_idem (t : Str)
    (h : ∀ s ∈ extractSteps t, headNotStrip s = true) :
    extractSteps (renumberSteps (extractSteps t)) = extractSteps t := by
  have hprops : ∀ s ∈ extractSteps t, s ≠ [] ∧ NoEdgeWs s ∧ '\n' ∉ s :=
    fun s hm => extractSteps_mem hm
  cases hs : extractSteps t with
  | nil => rfl
  | cons s0 ss =>
    rw [hs] at hprops h
    show extractSteps (joinNl (numberFrom 1 (s0 :: ss))) = s0 :: ss
    unfold extractSteps
    rw [splitNl_joinNl
      (mem_numberFrom_no_nl (fun s hm => (hprops s hm).2.2) 1)
      (numberFrom_ne_nil (by simp) 1)]
    exact filterMap_numberFrom (fun s hm => ⟨(hprops s hm).1, (hprops s hm).2.1⟩) h 1

/-- Witness for the amended C6 on a two-step text. -/
theorem step_extract_idem_witness :
    extractSteps (renumberSteps (extractSteps
      ("1. Apply pressure\n2. Call doctor".toList)))
    = extractSteps ("1. Apply pressure\n2. Call doctor".toList) :=
  step_extract_idem ("1. Apply pressure\n2. Call doctor".toList) (by decide)
